import Mathlib

/-!
# Verification of the YTMP3 conversion service core

Shallow embedding of the Go sources of the ytmp3api repository:
`internal/util/url.go`, `internal/store/store.go`, `internal/downloader/downloader.go`
and `internal/handlers/api.go`, together with the job-queue component that the
handlers use.  Machine integers are modelled as `Nat`/`Int` with explicit
`% 2^32` where 32-bit overflow matters (the SHA-1 core).
-/

namespace YtApi

/-! ## SHA-1 (`crypto/sha1` as used by `util.HashString`)

`util.HashString` hex-encodes the SHA-1 digest of the UTF-8 bytes of its
argument.  The compression function below is the standard SHA-1 algorithm over
32-bit words, modelled as `Nat` values kept below `2^32` by explicit masking. -/

/-- Truncate to a 32-bit word. -/
def mask32 (x : Nat) : Nat := x % 4294967296

/-- 32-bit left rotation (argument assumed `< 2^32`). -/
def rotl32 (x n : Nat) : Nat := mask32 ((x <<< n) ||| (x >>> (32 - n)))

/-- Big-endian bytes (most significant first) of a value, `n` bytes wide. -/
def beBytes : Nat → Nat → List Nat
  | 0, _ => []
  | n + 1, x => (x >>> (8 * n)) % 256 :: beBytes n x

/-- Assemble a big-endian 32-bit word from four bytes. -/
def word32 (a b c d : Nat) : Nat := (((a * 256 + b) * 256 + c) * 256 + d)

/-- Split the padded message into big-endian 32-bit words. -/
def toWords : List Nat → List Nat
  | a :: b :: c :: d :: rest => word32 a b c d :: toWords rest
  | _ => []

/-- SHA-1 message padding: `0x80`, zeros to 56 mod 64, 8-byte bit length. -/
def sha1pad (msg : List Nat) : List Nat :=
  let len := msg.length
  let z := (119 - len % 64) % 64
  msg ++ 128 :: List.replicate z 0 ++ beBytes 8 (len * 8)

/-- Message-schedule extension: produce `n` further words from the last 16. -/
def sha1extend : Nat → List Nat → List Nat
  | 0, _ => []
  | n + 1, w =>
    match w with
    | w0 :: _ :: w2 :: _ :: _ :: _ :: _ :: _ :: w8 :: _ :: _ :: _ :: _ :: w13 :: _ =>
      let nw := rotl32 (w13 ^^^ w8 ^^^ w2 ^^^ w0) 1
      nw :: sha1extend n (w.tail ++ [nw])
    | _ => []

/-- The 80-entry message schedule of one block. -/
def sha1schedule (block : List Nat) : List Nat :=
  block ++ sha1extend 64 block

/-- The round function/constant pair, by round index. -/
def sha1fk (i b c d : Nat) : Nat × Nat :=
  if i < 20 then ((b &&& c) ||| ((b ^^^ 4294967295) &&& d), 1518500249)
  else if i < 40 then (b ^^^ c ^^^ d, 1859775393)
  else if i < 60 then ((b &&& c) ||| (b &&& d) ||| (c &&& d), 2400959708)
  else (b ^^^ c ^^^ d, 3395469782)

/-- Run the 80 SHA-1 rounds over the schedule. -/
def sha1rounds : Nat → List Nat → Nat × Nat × Nat × Nat × Nat → Nat × Nat × Nat × Nat × Nat
  | _, [], st => st
  | i, w :: ws, (a, b, c, d, e) =>
    let fk := sha1fk i b c d
    let t := mask32 (rotl32 a 5 + fk.1 + e + fk.2 + w)
    sha1rounds (i + 1) ws (t, a, rotl32 b 30, c, d)

/-- Process `n` 64-byte blocks of a padded message, threading the hash state. -/
def sha1blocksN : Nat → List Nat → Nat × Nat × Nat × Nat × Nat → Nat × Nat × Nat × Nat × Nat
  | 0, _, h => h
  | n + 1, bytes, (h0, h1, h2, h3, h4) =>
    let (a, b, c, d, e) :=
      sha1rounds 0 (sha1schedule (toWords (bytes.take 64))) (h0, h1, h2, h3, h4)
    sha1blocksN n (bytes.drop 64)
      (mask32 (h0 + a), mask32 (h1 + b), mask32 (h2 + c), mask32 (h3 + d), mask32 (h4 + e))

/-- Process all 64-byte blocks of a padded message. -/
def sha1blocks (bytes : List Nat) (h : Nat × Nat × Nat × Nat × Nat) :
    Nat × Nat × Nat × Nat × Nat :=
  sha1blocksN (bytes.length / 64) bytes h

/-- One hex digit, lowercase. -/
def hexDigit (n : Nat) : Char :=
  if n < 10 then Char.ofNat (48 + n) else Char.ofNat (87 + n)

/-- Fixed-width lowercase hex of a value, `n` digits. -/
def hexNat : Nat → Nat → List Char
  | 0, _ => []
  | n + 1, x => hexDigit ((x >>> (4 * n)) % 16) :: hexNat n x

/-- Hex-encoded SHA-1 digest of a byte sequence. -/
def sha1hexBytes (msg : List Nat) : String :=
  let (h0, h1, h2, h3, h4) :=
    sha1blocks (sha1pad msg) (1732584193, 4023233417, 2562383102, 271733878, 3285377520)
  String.mk (hexNat 8 h0 ++ hexNat 8 h1 ++ hexNat 8 h2 ++ hexNat 8 h3 ++ hexNat 8 h4)

/-- UTF-8 encoding of one character (Go's `[]byte(s)` view of a string). -/
def utf8Char (c : Char) : List Nat :=
  let n := c.toNat
  if n < 128 then [n]
  else if n < 2048 then [192 ||| (n >>> 6), 128 ||| (n &&& 63)]
  else if n < 65536 then
    [224 ||| (n >>> 12), 128 ||| ((n >>> 6) &&& 63), 128 ||| (n &&& 63)]
  else
    [240 ||| (n >>> 18), 128 ||| ((n >>> 12) &&& 63), 128 ||| ((n >>> 6) &&& 63), 128 ||| (n &&& 63)]

/-- UTF-8 bytes of a string. -/
def utf8Bytes (s : String) : List Nat := s.data.flatMap utf8Char

/-- `util.HashString`: hex SHA-1 of the UTF-8 bytes of `s`. -/
def hashString (s : String) : String := sha1hexBytes (utf8Bytes s)


/-! ## String helpers (ASCII models of the `strings` package functions used) -/

/-- ASCII lower-casing of one character (`strings.ToLower` on ASCII input). -/
def lowerChar (c : Char) : Char :=
  if 65 ≤ c.toNat ∧ c.toNat ≤ 90 then Char.ofNat (c.toNat + 32) else c

/-- ASCII lower-casing of a string. -/
def toLowerStr (s : String) : String := String.mk (s.data.map lowerChar)

/-- ASCII whitespace (the characters `strings.TrimSpace` removes on ASCII input). -/
def isSpaceChar (c : Char) : Bool :=
  c == ' ' || c == Char.ofNat 9 || c == Char.ofNat 10 || c == Char.ofNat 11 ||
  c == Char.ofNat 12 || c == Char.ofNat 13

/-- `strings.TrimSpace` on ASCII input. -/
def trimSpace (s : String) : String :=
  String.mk (((s.data.dropWhile isSpaceChar).reverse.dropWhile isSpaceChar).reverse)

/-- `needle` is a prefix of `hay` (on character lists). -/
def listPre : List Char → List Char → Bool
  | [], _ => true
  | _ :: _, [] => false
  | c :: cs, d :: ds => c == d && listPre cs ds

/-- `strings.HasSuffix`. -/
def strEnds (s suf : String) : Bool := listPre suf.data.reverse s.data.reverse

/-- `strings.HasPrefix` / `String.startsWith`. -/
def strStarts (s pre : String) : Bool := listPre pre.data s.data

/-- `sub` occurs as a contiguous substring of `hay`. -/
def listContainsSub (sub : List Char) : List Char → Bool
  | [] => sub.isEmpty
  | c :: t => listPre sub (c :: t) || listContainsSub sub t

/-- `strings.Contains`. -/
def strContains (s sub : String) : Bool := listContainsSub sub.data s.data

/-- Split a character list at every occurrence of `sep`
(`strings.Split` with a one-character separator). -/
def splitChar (sep : Char) : List Char → List (List Char)
  | [] => [[]]
  | c :: cs =>
    if c == sep then [] :: splitChar sep cs
    else
      match splitChar sep cs with
      | [] => [[c]]
      | h :: t => (c :: h) :: t

/-- Split a string before the first occurrence of `sep`: `(before, some after)`
when present, `(s, none)` otherwise. -/
def cutChar (sep : Char) : List Char → List Char × Option (List Char)
  | [] => ([], none)
  | c :: cs =>
    if c == sep then ([], some cs)
    else
      let r := cutChar sep cs
      (c :: r.1, r.2)

/-! ## URL model (`net/url` as used by `util.CanonicalVideoID`)

`url.Parse` is modelled for absolute URLs of the shape
`scheme://host/path?query#fragment` (the only shapes the canonicalizer's
branches inspect); other inputs are declined with `none`, which the callers
treat like a parse error.  Percent-decoding is omitted: the inputs the claims
quantify over contain no escapes. -/

structure GoURL where
  scheme : String
  host : String
  path : String
  rawQuery : String
  fragment : String
deriving DecidableEq, Repr

/-- Is `c` allowed in a URL scheme after the first character? -/
def isSchemeChar (c : Char) : Bool :=
  (97 ≤ c.toNat && c.toNat ≤ 122) || (65 ≤ c.toNat && c.toNat ≤ 90) ||
  (48 ≤ c.toNat && c.toNat ≤ 57) || c == '+' || c == '-' || c == '.'

/-- Model of `url.Parse` for absolute `scheme://…` URLs. -/
def parseURL (s : String) : Option GoURL :=
  let (beforeFrag, fragOpt) := cutChar '#' s.data
  let frag := fragOpt.getD []
  let (beforeQ, qOpt) := cutChar '?' beforeFrag
  let query := qOpt.getD []
  match cutChar ':' beforeQ with
  | (sch, some rest) =>
    if sch.isEmpty || !(sch.all isSchemeChar) then none
    else
      match rest with
      | '/' :: '/' :: auth =>
        let host := auth.takeWhile (fun c => c ≠ '/')
        let path := auth.dropWhile (fun c => c ≠ '/')
        some ⟨String.mk sch, String.mk host, String.mk path, String.mk query, String.mk frag⟩
      | _ => none
  | _ => none

/-- `path.Base`. -/
def pathBase (p : String) : String :=
  if p = "" then "."
  else
    let l := (p.data.reverse.dropWhile (fun c => c == '/')).reverse
    if l.isEmpty then "/"
    else String.mk (l.reverse.takeWhile (fun c => c ≠ '/')).reverse

/-- `strings.Trim(s, "/")`. -/
def trimSlashes (s : String) : String :=
  String.mk (((s.data.dropWhile (fun c => c == '/')).reverse.dropWhile (fun c => c == '/')).reverse)

/-- `url.Values.Get` on a raw query: the first value bound to `key`
(splitting on `&`, cutting each pair at the first `=`). -/
def queryGet (rawQuery key : String) : String :=
  let pairs := (splitChar '&' rawQuery.data).map (fun part =>
    let (k, vOpt) := cutChar '=' part
    (String.mk k, String.mk (vOpt.getD [])))
  match pairs.find? (fun kv => kv.1 == key) with
  | some kv => kv.2
  | none => ""

/-- `util.CanonicalVideoID`, given an already-parsed URL (the body of the
function after the `url.Parse` call succeeds). -/
def canonicalOfURL (u : GoURL) : String :=
  let host := toLowerStr u.host
  if strContains host "youtube.com" && queryGet u.rawQuery "v" ≠ "" then
    "yt:" ++ queryGet u.rawQuery "v"
  else if strContains host "youtube.com" && strStarts (toLowerStr u.path) "/shorts/" then
    "yt:" ++ pathBase u.path
  else if strContains host "youtu.be" && trimSlashes (pathBase u.path) ≠ "" then
    "yt:" ++ trimSlashes (pathBase u.path)
  else
    u.scheme ++ "://" ++ u.host ++ u.path

/-- `util.CanonicalVideoID`. -/
def canonicalVideoID (raw : String) : String :=
  let s := trimSpace raw
  if s = "" then s
  else
    match parseURL s with
    | none => s
    | some u => canonicalOfURL u

/-- `util.IsAllowedDomain`. -/
def isAllowedDomain (raw : String) (allowed : List String) : Bool :=
  let s := trimSpace raw
  if s = "" then false
  else
    match parseURL s with
    | none => false
    | some u =>
      let host := toLowerStr u.host
      allowed.any (fun d0 =>
        let d := toLowerStr (trimSpace d0)
        d ≠ "" && (strEnds host d || host == d))

/-! ## Clip bounds (`util.ParseClipBounds`) -/

/-- The numeric value of a non-empty all-digit character list. -/
def digitsVal : List Char → Option Nat
  | [] => none
  | l =>
    if l.all (fun c => 48 ≤ c.toNat && c.toNat ≤ 57) then
      some (l.foldl (fun acc c => acc * 10 + (c.toNat - 48)) 0)
    else none

/-- `strconv.Atoi`: optional sign, then at least one digit. -/
def goAtoi (s : String) : Option Int :=
  match s.data with
  | '+' :: rest => (digitsVal rest).map Int.ofNat
  | '-' :: rest => (digitsVal rest).map (fun n => -(n : Int))
  | l => (digitsVal l).map Int.ofNat

/-- The `toSec` closure of `util.ParseClipBounds`: parse `HH:MM:SS` or `MM:SS`,
the empty string meaning 0.  `none` models `ok=false`. -/
def toSec (t0 : String) : Option Int :=
  let t := trimSpace t0
  if t = "" then some 0
  else
    match (splitChar ':' t.data).map String.mk with
    | [p0, p1] =>
      match goAtoi p0, goAtoi p1 with
      | some m, some s =>
        if m < 0 || s < 0 || s > 59 then none else some (m * 60 + s)
      | _, _ => none
    | [p0, p1, p2] =>
      match goAtoi p0, goAtoi p1, goAtoi p2 with
      | some h, some m, some s =>
        if h < 0 || m < 0 || m > 59 || s < 0 || s > 59 then none
        else some (h * 3600 + m * 60 + s)
      | _, _, _ => none
    | _ => none

/-- `util.ParseClipBounds`. -/
def parseClipBounds (start endt : String) (maxSeconds totalDuration : Int) :
    Int × Int × Bool :=
  match toSec start, toSec endt with
  | some ss, some ee =>
    if ee > 0 && ee ≤ ss then (0, 0, false)
    else if totalDuration > 0 && ss ≥ totalDuration then (0, 0, false)
    else if totalDuration > 0 && ee > 0 && ee > totalDuration then (0, 0, false)
    else
      let clipLen : Int :=
        if ee > 0 then ee - ss else if totalDuration > 0 then totalDuration - ss else 0
      if maxSeconds > 0 && clipLen > maxSeconds then (0, 0, false)
      else (ss, ee, true)
  | _, _ => (0, 0, false)

/-! ## Session data model (`internal/models`, state strings per spec §6)

The `models` package itself is not in the snapshot; its field set is determined
by every use in `handlers/api.go`, and the state string values by the spec's
status alphabet (`initializing` is the value of the "queued for convert"
state).  Timestamps (`CreatedAt`/`UpdatedAt`) and the unused `Quality` field
are omitted: no claim observes them. -/

structure ConversionSession where
  id : String
  url : String
  assetHash : String
  variantHash : String
  state : String
  sourcePath : String
  outputPath : String
  downloadProgress : Int
  conversionProgress : Int
  metaTitle : String
  metaThumbnail : String
  metaDuration : Int
  errMsg : String
deriving DecidableEq, Repr

/-- A fresh session as `handlePrepare` builds it:
`{ID: id, URL: url, State: preparing}`, all other fields zero. -/
def newSession (id url : String) : ConversionSession :=
  ⟨id, url, "", "", "preparing", "", "", 0, 0, "", "", 0, ""⟩

/-! ## Memory store (`store.MemoryStore`)

Go maps are modelled as association lists: lookup returns the first binding,
insertion replaces any existing binding for the key, deletion removes it. -/

/-- Go map lookup. -/
def mapGet {α : Type} : List (String × α) → String → Option α
  | [], _ => none
  | (k, v) :: t, key => if k = key then some v else mapGet t key

/-- Go map insertion (replaces an existing binding). -/
def mapSet {α : Type} (m : List (String × α)) (key : String) (v : α) : List (String × α) :=
  (key, v) :: m.filter (fun p => p.1 ≠ key)

/-- Go map deletion. -/
def mapDel {α : Type} (m : List (String × α)) (key : String) : List (String × α) :=
  m.filter (fun p => p.1 ≠ key)

structure MemoryStore where
  sessions : List (String × ConversionSession)
  urlToID : List (String × String)
  variantToOut : List (String × String)
  assetMap : List (String × (String × String))
deriving DecidableEq, Repr

/-- `MemoryStore.CreateSession`: fails (returns `none`) if the id exists. -/
def createSession (m : MemoryStore) (s : ConversionSession) : Option MemoryStore :=
  match mapGet m.sessions s.id with
  | some _ => none
  | none => some { m with sessions := mapSet m.sessions s.id s }

/-- `MemoryStore.UpdateSession`: errors (identity here) if the id is absent.
The handlers ignore the returned error, so the erroring call is modelled as
leaving the store unchanged. -/
def updateSession (m : MemoryStore) (s : ConversionSession) : MemoryStore :=
  match mapGet m.sessions s.id with
  | none => m
  | some _ => { m with sessions := mapSet m.sessions s.id s }

/-- `MemoryStore.GetSession` (value copy). -/
def getSession (m : MemoryStore) (id : String) : Option ConversionSession :=
  mapGet m.sessions id

/-- `MemoryStore.DeleteSession`: removes the session and every URL-map entry
whose value is `id`; always returns `nil` (the `Option String` error is
always `none`). -/
def deleteSession (m : MemoryStore) (id : String) : MemoryStore × Option String :=
  ({ m with
      sessions := mapDel m.sessions id,
      urlToID := m.urlToID.filter (fun p => p.2 ≠ id) }, none)

/-- `MemoryStore.SetURLMap`. -/
def setURLMap (m : MemoryStore) (url id : String) : MemoryStore :=
  { m with urlToID := mapSet m.urlToID url id }

/-- `MemoryStore.SetVariant`. -/
def setVariant (m : MemoryStore) (variantHash outputPath : String) : MemoryStore :=
  { m with variantToOut := mapSet m.variantToOut variantHash outputPath }

/-- `MemoryStore.GetVariant`. -/
def getVariant (m : MemoryStore) (variantHash : String) : Option String :=
  mapGet m.variantToOut variantHash

/-- `MemoryStore.SetAsset`. -/
def setAsset (m : MemoryStore) (assetHash sourcePath state : String) : MemoryStore :=
  { m with assetMap := mapSet m.assetMap assetHash (sourcePath, state) }

/-- `MemoryStore.GetAsset`: `some (sourcePath, state)` when present. -/
def getAsset (m : MemoryStore) (assetHash : String) : Option (String × String) :=
  mapGet m.assetMap assetHash

/-! ## Priority job queue (`package queue`, embedded in
`scripts/flow_report.sh`)

The `queue` package is a bounded priority queue built on Go's
`container/heap` over the comparator `jobPQ.Less`: higher `Priority` first,
and for equal priority the earlier `EnqueuedAt` first.  The heap slice `pq`
is modelled as a `List Job` in array order; `heap.Push`, `heap.Pop` and the
standard library's `up`/`down` sift loops are translated with the loop
index as structural fuel (`up` strictly decreases `j`, `down` climbs to a
child below `n` each step, so the fuel never runs out before the loop's own
break).  `Job` carries the struct's fields plus the `Attempts` counter the
handlers read and the spec (§9) specifies; enqueue timestamps are abstract
`Nat` instants and `time.Time.Before` is `<` on them. -/

inductive JobType where
  | download
  | convert
deriving DecidableEq, Repr, BEq

structure Job where
  id : String
  jobType : JobType
  sessionID : String
  quality : String
  startTime : String
  endTime : String
  enqueuedAt : Nat
  priority : Int
  attempts : Nat
  apiKey : String
deriving DecidableEq, Repr

/-- Placeholder for out-of-range heap reads (never reached in verified uses). -/
def defaultJob : Job := ⟨"", .download, "", "", "", "", 0, 0, 0, ""⟩

/-- Array read `pq[i]` on the heap slice. -/
def getJ (l : List Job) (i : Nat) : Job := l.getD i defaultJob

/-- `jobPQ.Swap`: `pq[i], pq[j] = pq[j], pq[i]`. -/
def swapJ (l : List Job) (i j : Nat) : List Job :=
  (l.set i (getJ l j)).set j (getJ l i)

/-- `jobPQ.Less`: higher priority first; for equal priority, earlier
`EnqueuedAt` first. -/
def heapLess (a b : Job) : Bool :=
  if a.priority == b.priority then decide (a.enqueuedAt < b.enqueuedAt)
  else decide (a.priority > b.priority)

/-- The sift loop `up(h, j)` of `container/heap`, fuel-indexed: each step
moves from `j` to the parent `(j - 1) / 2 < j`, so fuel `j` always reaches
the loop's own break. -/
def upN : Nat → List Job → Nat → List Job
  | 0, l, _ => l
  | f + 1, l, j =>
    let i := (j - 1) / 2
    if i == j || !heapLess (getJ l j) (getJ l i) then l
    else upN f (swapJ l i j) i

/-- `up(h, j)`. -/
def heapUp (l : List Job) (j : Nat) : List Job := upN j l j

/-- The sift loop `down(h, i, n)` of `container/heap`, fuel-indexed: each
step climbs from `i` to a child `≥ i + 1` and the loop breaks once
`2*i + 1 ≥ n`, so fuel `n` suffices from any start. -/
def downN : Nat → List Job → Nat → Nat → List Job
  | 0, l, _, _ => l
  | f + 1, l, i, n =>
    let j1 := 2 * i + 1
    if n ≤ j1 then l
    else
      let j := if j1 + 1 < n && heapLess (getJ l (j1 + 1)) (getJ l j1)
        then j1 + 1 else j1
      if !heapLess (getJ l j) (getJ l i) then l
      else downN f (swapJ l i j) j n

/-- `down(h, i, n)`. -/
def heapDown (l : List Job) (i n : Nat) : List Job := downN n l i n

/-- `heap.Push`: append, then sift the new last element up. -/
def heapPush (l : List Job) (x : Job) : List Job := heapUp (l ++ [x]) l.length

/-- `heap.Pop` on a `jobPQ`: swap the root with the last element, sift the
new root down over the first `n` entries, then remove and return the last
element (the old root). -/
def heapPopL (l : List Job) : Job × List Job :=
  let n := l.length - 1
  let l2 := heapDown (swapJ l 0 n) 0 n
  (getJ l2 n, l2.take n)

structure Queue where
  capacity : Nat
  jobs : List Job
deriving DecidableEq, Repr

/-- `Queue.Enqueue`: atomically rejects when size has reached capacity,
otherwise `heap.Push`. -/
def enqueue (q : Queue) (j : Job) : Queue × Bool :=
  if q.capacity ≤ q.jobs.length then (q, false)
  else ({ q with jobs := heapPush q.jobs j }, true)

/-- `Queue.Dequeue` (the non-blocking core: `none` when empty, else
`heap.Pop`). -/
def dequeue (q : Queue) : Option (Job × Queue) :=
  match q.jobs with
  | [] => none
  | _ :: _ =>
    some ((heapPopL q.jobs).1, { q with jobs := (heapPopL q.jobs).2 })

/-- Repeated `heap.Pop`, with explicit fuel so the kernel can evaluate it. -/
def drainH : Nat → List Job → List Job
  | 0, _ => []
  | _ + 1, [] => []
  | f + 1, x :: xs => (heapPopL (x :: xs)).1 :: drainH f (heapPopL (x :: xs)).2

/-- The sequence of jobs successive dequeues return. -/
def drain (q : Queue) : List Job := drainH q.jobs.length q.jobs

/-- A sequence of `Enqueue` calls (a rejected job leaves the queue as it
was). -/
def enqueueList (q : Queue) (js : List Job) : Queue :=
  js.foldl (fun acc j => (enqueue acc j).1) q

/-- The fold of `PositionForSession`'s first loop, restricted to the
matching entries: keep the earliest-enqueued entry seen so far, keeping the
earlier hit on ties. -/
def selectEarliest (cur : Job) (rest : List Job) : Job :=
  rest.foldl (fun best x => if x.enqueuedAt < best.enqueuedAt then x else best) cur

/-- `Queue.PositionForSession`: one pass over the heap slice picking the
earliest-enqueued job matching the type and session (`found`), then a
second pass counting, among same-type jobs, those with higher priority or
with equal priority and strictly earlier `EnqueuedAt` than `found`;
0 when no job matches. -/
def positionForSession (q : Queue) (ty : JobType) (sid : String) : Nat :=
  let found := q.jobs.foldl
    (fun acc pj =>
      if pj.jobType == ty && pj.sessionID == sid then
        match acc with
        | none => some pj
        | some f => if pj.enqueuedAt < f.enqueuedAt then some pj else some f
      else acc) none
  match found with
  | none => 0
  | some f =>
    q.jobs.foldl
      (fun pos pj =>
        if pj.jobType != ty then pos
        else if pj.priority > f.priority then pos + 1
        else if pj.priority == f.priority && pj.enqueuedAt < f.enqueuedAt then pos + 1
        else pos) 1

/-- `a` is served strictly before `b` under `jobPQ.Less`: higher priority,
or equal priority and strictly earlier enqueue instant. -/
def jobStrictBefore (a b : Job) : Bool :=
  a.priority > b.priority || (a.priority == b.priority && a.enqueuedAt < b.enqueuedAt)

/-- The dequeue order as a proposition: higher priority first, then earlier
enqueue time within a tier. -/
def jobOrd (a b : Job) : Prop :=
  a.priority > b.priority ∨ (a.priority = b.priority ∧ a.enqueuedAt ≤ b.enqueuedAt)

/-- Index of the parent of heap slot `j`. -/
def parentIdx (j : Nat) : Nat := (j - 1) / 2

/-- The binary-heap invariant `container/heap` maintains under `jobPQ.Less`:
no entry is `Less` than its parent. -/
def isHeap (l : List Job) : Prop :=
  ∀ j, 0 < j → j < l.length → heapLess (getJ l j) (getJ l (parentIdx j)) = false

/-- The heap invariant restricted to the first `n` slots. -/
def isHeapBelow (l : List Job) (n : Nat) : Prop :=
  ∀ j, 0 < j → j < n → heapLess (getJ l j) (getJ l (parentIdx j)) = false

/-- Invariant of the `up` sift loop at cursor `j`: every slot other than `j`
respects its parent, and the children of `j` also respect `j`'s parent. -/
def upInv (l : List Job) (j : Nat) : Prop :=
  (∀ k, 0 < k → k < l.length → k ≠ j →
    heapLess (getJ l k) (getJ l (parentIdx k)) = false)
  ∧ (∀ c, 0 < c → c < l.length → parentIdx c = j → 0 < j →
    heapLess (getJ l c) (getJ l (parentIdx j)) = false)

/-- Invariant of the `down` sift loop at cursor `i` over the first `n`
slots: every slot below `n` whose parent is not `i` respects its parent,
and the children of `i` below `n` also respect `i`'s parent. -/
def downInv (l : List Job) (n i : Nat) : Prop :=
  (∀ k, 0 < k → k < n → parentIdx k ≠ i →
    heapLess (getJ l k) (getJ l (parentIdx k)) = false)
  ∧ (∀ c, 0 < c → c < n → parentIdx c = i → 0 < i →
    heapLess (getJ l c) (getJ l (parentIdx i)) = false)

/-- Pairwise-distinct `(priority, enqueue-time)` keys. -/
def distinctKeys (l : List Job) : Prop :=
  l.Pairwise (fun a b => ¬ (a.priority = b.priority ∧ a.enqueuedAt = b.enqueuedAt))

/-! ## Handlers (`internal/handlers/api.go`)

Each HTTP/worker handler is modelled as a pure transition on the memory store
and queue.  Externals are parameters: the generated ids (`newID()`), the
metadata fetched, the enqueue instant `now`, and the download/convert tool
outcome (`none` = success, `some msg` = non-zero exit with error message).
File-system writes and the response bodies beyond the observed fields are
outside the model. -/

structure Config where
  allowedDomains : List String
  maxClipSeconds : Int
  maxJobRetries : Nat
  conversionsDir : String
deriving Repr

/-- Outcome of `handlePrepare`: resulting store and download queue, the HTTP
status, the response's `status` field (when 202), and the jobs this call
successfully enqueued. -/
structure PrepareOut where
  store : MemoryStore
  queue : Queue
  status : Nat
  respStatus : String
  enq : List Job
deriving DecidableEq, Repr

/-- `handlePrepare` (api.go:175-215). -/
def handlePrepare (cfg : Config) (st : MemoryStore) (q : Queue)
    (reqURL newSessID jobID : String) (metaTitle metaThumb : String) (metaDur : Int)
    (now : Nat) : PrepareOut :=
  if reqURL = "" then ⟨st, q, 400, "", []⟩
  else if !isAllowedDomain reqURL cfg.allowedDomains then ⟨st, q, 400, "", []⟩
  else
    match createSession st (newSession newSessID reqURL) with
    | none => ⟨st, q, 500, "", []⟩
    | some st1 =>
      let st2 := setURLMap st1 reqURL newSessID
      let s1 := { newSession newSessID reqURL with
                    metaTitle := metaTitle, metaThumbnail := metaThumb,
                    metaDuration := metaDur, state := "created" }
      let st3 := updateSession st2 s1
      let ah := hashString (canonicalVideoID reqURL)
      let s2 := { s1 with assetHash := ah }
      let st4 := updateSession st3 s2
      let assetMiss :=
        match getAsset st4 ah with
        | none => true
        | some (_, aState) => aState = "" || aState = "failed"
      if assetMiss then
        let st5 := setAsset st4 ah "" "preparing"
        let job : Job := ⟨jobID, .download, newSessID, "", "", "", now, 10, 0, ""⟩
        match enqueue q job with
        | (q1, false) => ⟨st5, q1, 503, "", []⟩
        | (q1, true) => ⟨st5, q1, 202, s2.state, [job]⟩
      else ⟨st4, q, 202, s2.state, []⟩

/-- Outcome of `handleConvertReq`: resulting store and convert queue, HTTP
status, the response's `status` and `queue_position` fields (when 202), and
the jobs enqueued. -/
structure ConvertOut where
  store : MemoryStore
  queue : Queue
  status : Nat
  respStatus : String
  queuePos : Nat
  enq : List Job
deriving DecidableEq, Repr

/-- `handleConvertReq` (api.go:217-298). -/
def handleConvertReq (cfg : Config) (st : MemoryStore) (q : Queue)
    (cid quality startT endT apiKey jobID : String) (now : Nat) : ConvertOut :=
  if cid = "" then ⟨st, q, 400, "", 0, []⟩
  else
    match getSession st cid with
    | none => ⟨st, q, 404, "", 0, []⟩
    | some s0 =>
      let total := if s0.metaDuration < 0 then 0 else s0.metaDuration
      if !(parseClipBounds startT endT cfg.maxClipSeconds total).2.2 then
        ⟨st, q, 400, "", 0, []⟩
      else
        let ah := hashString (canonicalVideoID s0.url)
        let vh := hashString (ah ++ "|" ++ quality ++ "|" ++ startT ++ "|" ++ endT)
        let s1 := { s0 with assetHash := ah, variantHash := vh }
        let st1 := updateSession st s1
        let variantHit : Bool :=
          match getVariant st1 vh with
          | some out => out != ""
          | none => false
        if variantHit then
          let out := (getVariant st1 vh).getD ""
          let s2 := { s1 with outputPath := out, state := "completed",
                              downloadProgress := 100, conversionProgress := 100 }
          ⟨updateSession st1 s2, q, 202, "completed", 0, []⟩
        else
          let hydrated :=
            if s1.sourcePath ≠ "" then (s1, true)
            else
              match getAsset st1 s1.assetHash with
              | some (src, aState) =>
                if src ≠ "" ∧ aState = "downloaded" then
                  ({ s1 with sourcePath := src }, true)
                else (s1, false)
              | none => (s1, false)
          let s2 := hydrated.1
          let sourceReady := hydrated.2
          let lk := toLowerStr apiKey
          let priority : Int :=
            if strStarts lk "premium" || strStarts lk "pro" || strStarts lk "vip" then 50
            else 5
          let job : Job := ⟨jobID, .convert, s1.id, quality, startT, endT, now, priority, 0, apiKey⟩
          match enqueue q job with
          | (q1, false) => ⟨st1, q1, 503, "", 0, []⟩
          | (q1, true) =>
            let s3 := { s2 with state := if sourceReady then "converting" else "initializing" }
            let st2 := updateSession st1 s3
            ⟨st2, q1, 202, s3.state, positionForSession q1 .convert s1.id, [job]⟩

/-- Outcome of `handleDelete`: resulting store, HTTP status, and the
response's `status` field. -/
structure DeleteOut where
  store : MemoryStore
  status : Nat
  respStatus : String
deriving DecidableEq, Repr

/-- `handleDelete` (api.go:322-335).  The best-effort file removals are
outside the store model. -/
def handleDelete (st : MemoryStore) (id : String) : DeleteOut :=
  ⟨(deleteSession st id).1, 200, "deleted"⟩

/-- Outcome of a worker handler: resulting store, jobs scheduled for delayed
re-enqueue as `(delay seconds, job)` pairs, and the error/success counter
increments. -/
structure WorkerOut where
  store : MemoryStore
  delayed : List (Nat × Job)
  errInc : Nat
  succInc : Nat
deriving DecidableEq, Repr

/-- The download progress callback of `handleDownload`: each delivered value
sets the session's download progress and persists the session. -/
def applyDownloadProgress (st : MemoryStore) (s : ConversionSession) (ps : List Int) :
    ConversionSession × MemoryStore :=
  ps.foldl (fun acc p =>
    let s1 := { acc.1 with downloadProgress := p }
    (s1, updateSession acc.2 s1)) (s, st)

/-- The conversion progress callback of `handleConvert`. -/
def applyConvertProgress (st : MemoryStore) (s : ConversionSession) (ps : List Int) :
    ConversionSession × MemoryStore :=
  ps.foldl (fun acc p =>
    let s1 := { acc.1 with conversionProgress := p }
    (s1, updateSession acc.2 s1)) (s, st)

/-- `handleDownload` (api.go:337-380).  `result` is the downloader outcome,
`progress` the values its callback delivered. -/
def handleDownload (cfg : Config) (st : MemoryStore) (job : Job)
    (result : Option String) (progress : List Int) : WorkerOut :=
  match getSession st job.sessionID with
  | none => ⟨st, [], 0, 0⟩
  | some s0 =>
    let s1 := { s0 with state := "downloading" }
    let st1 := updateSession st s1
    let s2 :=
      if s1.assetHash = "" then
        { s1 with assetHash := hashString (canonicalVideoID s1.url) }
      else s1
    let out := cfg.conversionsDir ++ "/streams/" ++ s2.assetHash ++ ".source"
    let pr := applyDownloadProgress st1 s2 progress
    let s3 := pr.1
    let st2 := pr.2
    match result with
    | some errMsg =>
      let a := job.attempts + 1
      if a < cfg.maxJobRetries then
        ⟨st2, [(min (2 ^ a) 60, { job with attempts := a })], 0, 0⟩
      else
        let s4 := { s3 with state := "failed", errMsg := errMsg }
        let st3 := updateSession st2 s4
        ⟨setAsset st3 s2.assetHash "" "failed", [], 1, 0⟩
    | none =>
      let s4 := { s3 with sourcePath := out, state := "downloaded", downloadProgress := 100 }
      let st3 := updateSession st2 s4
      ⟨setAsset st3 s2.assetHash out "downloaded", [], 0, 1⟩

/-- `handleConvert` (api.go:382-451). -/
def handleConvert (cfg : Config) (st : MemoryStore) (job : Job)
    (result : Option String) (progress : List Int) : WorkerOut :=
  match getSession st job.sessionID with
  | none => ⟨st, [], 0, 0⟩
  | some s0 =>
    let s1 :=
      if s0.assetHash = "" then
        { s0 with assetHash := hashString (canonicalVideoID s0.url) }
      else s0
    let hyd :=
      if s1.sourcePath = "" then
        match getAsset st s1.assetHash with
        | some (src, aState) =>
          if src ≠ "" ∧ aState = "downloaded" then
            let s2 := { s1 with sourcePath := src, state := "downloaded",
                                downloadProgress := 100 }
            (s2, updateSession st s2)
          else (s1, st)
        | none => (s1, st)
      else (s1, st)
    let s2 := hyd.1
    let st1 := hyd.2
    if s2.sourcePath = "" ∨ s2.state = "downloading" ∨ s2.state = "preparing" ∨
        s2.state = "created" then
      ⟨st1, [(5, job)], 0, 0⟩
    else
      let s3 := { s2 with state := "converting" }
      let st2 := updateSession st1 s3
      let s4 :=
        if s3.assetHash = "" then
          { s3 with assetHash := hashString (canonicalVideoID s3.url) }
        else s3
      let s5 :=
        if s4.variantHash = "" then
          { s4 with variantHash :=
              hashString (s4.assetHash ++ "|" ++ job.quality ++ "|" ++ job.startTime ++
                "|" ++ job.endTime) }
        else s4
      let out := cfg.conversionsDir ++ "/outputs/" ++ s5.variantHash ++ ".mp3"
      let pr := applyConvertProgress st2 s5 progress
      let s6 := pr.1
      let st3 := pr.2
      match result with
      | some errMsg =>
        let a := job.attempts + 1
        if a < cfg.maxJobRetries then
          ⟨st3, [(min (2 ^ a) 60, { job with attempts := a })], 0, 0⟩
        else
          let s7 := { s6 with state := "failed", errMsg := errMsg }
          ⟨updateSession st3 s7, [], 1, 0⟩
      | none =>
        let s7 := { s6 with outputPath := out, conversionProgress := 100, state := "completed" }
        let st4 := updateSession st3 s7
        ⟨setVariant st4 s5.variantHash out, [], 0, 1⟩

/-! ## Download progress (`internal/downloader/downloader.go`)

`readProgress` parses each matching `[download] NN(.NN)%` line, truncates the
float to an int `p`, clamps it to `[0,100]` and reports it; `Download` wraps
the session callback in `monotonicCB`, which delivers a reported value only
when it strictly exceeds the last delivered value (initially `-1`), updating
atomically across the two stream-reading goroutines.  The model takes the
linearized sequence of truncated parsed values from both streams (any
interleaving is some such sequence) and applies the clamp and the monotonic
filter. -/

/-- The clamp of `readProgress`: `p < 0 ↦ 0`, `p > 100 ↦ 100`. -/
def clampPct (p : Int) : Int :=
  if p < 0 then 0 else if p > 100 then 100 else p

/-- `monotonicCB`: deliver a value only when it exceeds the last delivered
one, threading the `lastSent` register (initially `-1`). -/
def monotonicDeliver : Int → List Int → List Int
  | _, [] => []
  | last, p :: rest =>
    if p ≤ last then monotonicDeliver last rest
    else p :: monotonicDeliver p rest

/-- Values delivered to `on_progress` during one `Download` call whose two
streams observed (in linearization order) the truncated parse results `obs`. -/
def downloadDeliveries (obs : List Int) : List Int :=
  monotonicDeliver (-1) (obs.map clampPct)

/-! ## Helper lemmas -/

theorem monotonicDeliver_mem_gt {p : Int} :
    ∀ {l : List Int} {last : Int}, p ∈ monotonicDeliver last l → last < p := by
  intro l
  induction l with
  | nil => intro last h; simp [monotonicDeliver] at h
  | cons q t ih =>
    intro last h
    simp only [monotonicDeliver] at h
    split at h
    · exact ih h
    · rcases List.mem_cons.mp h with rfl | hm
      · omega
      · have h1 : q < p := ih hm
        omega

theorem monotonicDeliver_mem_src {p : Int} :
    ∀ {l : List Int} {last : Int}, p ∈ monotonicDeliver last l → p ∈ l := by
  intro l
  induction l with
  | nil => intro last h; simp [monotonicDeliver] at h
  | cons q t ih =>
    intro last h
    simp only [monotonicDeliver] at h
    split at h
    · exact List.mem_cons_of_mem _ (ih h)
    · rcases List.mem_cons.mp h with rfl | hm
      · exact List.mem_cons_self _ _
      · exact List.mem_cons_of_mem _ (ih hm)

theorem monotonicDeliver_sorted :
    ∀ (l : List Int) (last : Int), List.Sorted (· < ·) (monotonicDeliver last l) := by
  intro l
  induction l with
  | nil => intro last; simp [monotonicDeliver]
  | cons q t ih =>
    intro last
    simp only [monotonicDeliver]
    split
    · exact ih last
    · exact List.sorted_cons.mpr ⟨fun b hb => monotonicDeliver_mem_gt hb, ih q⟩

theorem clampPct_range (p : Int) : 0 ≤ clampPct p ∧ clampPct p ≤ 100 := by
  simp only [clampPct]
  split_ifs <;> omega

/-! ## Claims -/

/-- C7: for any linearization of the progress values parsed from the download
tool's two streams, the values `monotonicCB` delivers to `on_progress` are
strictly increasing (values not exceeding the last delivered one are
suppressed) and all lie in `[0, 100]`; in particular the session's download
progress is non-decreasing within one run of the download stage. -/
theorem downloadDeliveries_strict_mono_in_range (obs : List Int) :
    List.Sorted (· < ·) (downloadDeliveries obs) ∧
      ∀ p ∈ downloadDeliveries obs, 0 ≤ p ∧ p ≤ 100 := by
  constructor
  · exact monotonicDeliver_sorted _ _
  · intro p hp
    have hsrc := monotonicDeliver_mem_src hp
    rcases List.mem_map.mp hsrc with ⟨q, _, rfl⟩
    exact clampPct_range q

/-- C8: `parse_clip_bounds` (empty time strings meaning 0) returns `ok=false`
exactly when `end > 0 ∧ end ≤ start`, or `total_duration > 0` and
(`start ≥ total_duration` or `end > total_duration`), or `max_seconds > 0` and
the clip length (`end − start` when `end > 0`, else `total_duration − start`
when `total_duration > 0`, else 0) exceeds `max_seconds`; otherwise it returns
the parsed seconds with `ok=true`.  The three concrete evaluations of the
claim are included. -/
theorem parseClipBounds_ok_characterization :
    (∀ (s e : String) (maxS total ss ee : Int),
      toSec s = some ss → toSec e = some ee →
      parseClipBounds s e maxS total =
        if (ee > 0 ∧ ee ≤ ss) ∨ (total > 0 ∧ (ss ≥ total ∨ (ee > 0 ∧ ee > total))) ∨
            (maxS > 0 ∧ (if ee > 0 then ee - ss else if total > 0 then total - ss else 0) > maxS)
        then (0, 0, false) else (ss, ee, true))
    ∧ parseClipBounds "00:01:00" "00:02:00" 900 0 = (60, 120, true)
    ∧ parseClipBounds "" "" 900 200 = (0, 0, true)
    ∧ (parseClipBounds "00:05:00" "00:03:00" 900 0).2.2 = false := by
  refine ⟨?_, by decide, by decide, by decide⟩
  intro s e maxS total ss ee h1 h2
  simp only [parseClipBounds, h1, h2, Bool.and_eq_true, decide_eq_true_eq]
  split_ifs <;> simp_all <;> omega

/-- Witness for C8: the characterization applied at
`("00:01:00", "00:02:00", 900, 0)`, whose parsed bounds are `(60, 120)`. -/
theorem parseClipBounds_ok_characterization_witness :
    parseClipBounds "00:01:00" "00:02:00" 900 0 = (60, 120, true) := by
  have h := parseClipBounds_ok_characterization.1 "00:01:00" "00:02:00" 900 0 60 120
    (by decide) (by decide)
  rw [h]
  norm_num

/-- C9: the canonicalizer maps the three claim URLs to `yt:abc`; in general,
for `youtube.com` hosts with a non-empty `v` query parameter it returns
`yt:<v>`, for `/shorts/<id>` paths on such hosts it returns `yt:<id>`, and
for `youtu.be/<id>` paths it returns `yt:<id>`; identical canonical URLs
yield identical asset fingerprints. -/
theorem canonicalVideoID_yt_forms :
    canonicalVideoID "https://www.youtube.com/watch?v=abc&t=5" = "yt:abc"
    ∧ canonicalVideoID "https://youtu.be/abc" = "yt:abc"
    ∧ canonicalVideoID "https://www.youtube.com/shorts/abc" = "yt:abc"
    ∧ (∀ raw u, trimSpace raw ≠ "" → parseURL (trimSpace raw) = some u →
        strContains (toLowerStr u.host) "youtube.com" = true →
        queryGet u.rawQuery "v" ≠ "" →
        canonicalVideoID raw = "yt:" ++ queryGet u.rawQuery "v")
    ∧ (∀ raw u, trimSpace raw ≠ "" → parseURL (trimSpace raw) = some u →
        strContains (toLowerStr u.host) "youtube.com" = true →
        queryGet u.rawQuery "v" = "" →
        strStarts (toLowerStr u.path) "/shorts/" = true →
        canonicalVideoID raw = "yt:" ++ pathBase u.path)
    ∧ (∀ raw u, trimSpace raw ≠ "" → parseURL (trimSpace raw) = some u →
        strContains (toLowerStr u.host) "youtube.com" = false →
        strContains (toLowerStr u.host) "youtu.be" = true →
        trimSlashes (pathBase u.path) ≠ "" →
        canonicalVideoID raw = "yt:" ++ trimSlashes (pathBase u.path))
    ∧ (∀ u1 u2 : String, canonicalVideoID u1 = canonicalVideoID u2 →
        hashString (canonicalVideoID u1) = hashString (canonicalVideoID u2)) := by
  refine ⟨by decide, by decide, by decide, ?_, ?_, ?_, fun u1 u2 h => congrArg _ h⟩
  · intro raw u hne hparse hc hv
    simp only [canonicalVideoID, hparse, if_neg hne, canonicalOfURL, hc, hv]
    simp [hv]
  · intro raw u hne hparse hc hv hs
    simp only [canonicalVideoID, hparse, if_neg hne, canonicalOfURL, hc, hv, hs]
    simp
  · intro raw u hne hparse hc hb ht
    simp only [canonicalVideoID, hparse, if_neg hne, canonicalOfURL, hc, hb, ht]
    simp [ht]

/-- Witness for C9: the `v`-parameter clause applied to the parsed form of
`https://m.youtube.com/watch?v=xyz`. -/
theorem canonicalVideoID_yt_forms_witness :
    canonicalVideoID "https://m.youtube.com/watch?v=xyz" = "yt:xyz" := by
  have h := canonicalVideoID_yt_forms.2.2.2.1 "https://m.youtube.com/watch?v=xyz"
    ⟨"https", "m.youtube.com", "/watch", "v=xyz", ""⟩
    (by decide) (by decide) (by decide) (by decide)
  simpa using h

theorem mapGet_none_forall {α : Type} {m : List (String × α)} {key : String}
    (h : mapGet m key = none) : ∀ p ∈ m, p.1 ≠ key := by
  induction m with
  | nil => simp
  | cons p t ih =>
    intro q hq
    simp only [mapGet] at h
    split at h
    · exact absurd h (by simp)
    · rcases List.mem_cons.mp hq with rfl | hm
      · assumption
      · exact ih h q hm

theorem mapGet_mapDel_self {α : Type} (m : List (String × α)) (key : String) :
    mapGet (mapDel m key) key = none := by
  induction m with
  | nil => rfl
  | cons p t ih =>
    cases p with
    | mk k v =>
      by_cases hk : k = key
      · subst hk
        have h1 : mapDel ((k, v) :: t) k = mapDel t k := by simp [mapDel]
        rw [h1, ih]
      · have h1 : mapDel ((k, v) :: t) key = (k, v) :: mapDel t key := by simp [mapDel, hk]
        rw [h1]
        simp only [mapGet]
        rw [if_neg hk, ih]

theorem mapGet_mapDel_other {α : Type} {m : List (String × α)} {key j : String}
    (hj : j ≠ key) : mapGet (mapDel m key) j = mapGet m j := by
  induction m with
  | nil => rfl
  | cons p t ih =>
    cases p with
    | mk k v =>
      by_cases hk : k = key
      · subst hk
        have h1 : mapDel ((k, v) :: t) k = mapDel t k := by simp [mapDel]
        rw [h1, ih]
        simp only [mapGet]
        rw [if_neg (Ne.symm hj)]
      · have h1 : mapDel ((k, v) :: t) key = (k, v) :: mapDel t key := by simp [mapDel, hk]
        rw [h1]
        simp only [mapGet]
        rw [ih]

theorem mapGet_mem {α : Type} {m : List (String × α)} {key : String} {v : α}
    (h : mapGet m key = some v) : (key, v) ∈ m := by
  induction m with
  | nil => simp [mapGet] at h
  | cons p t ih =>
    simp only [mapGet] at h
    split at h
    · next heq => cases p; simp_all
    · exact List.mem_cons_of_mem _ (ih h)

/-- C10: `delete` responds 200 with status `deleted` for every id;
`MemoryStore.DeleteSession` never reports not-found; afterwards the session
is gone and no URL-map entry points at the id; when the session exists the
other sessions and the asset/variant caches are untouched; when it does not
exist (and, as at every reachable store, no URL-map entry dangles at it) the
store is unchanged; and deletion is idempotent. -/
theorem handleDelete_idempotent_ok :
    ∀ (st : MemoryStore) (id : String),
    (handleDelete st id).status = 200
    ∧ (handleDelete st id).respStatus = "deleted"
    ∧ (deleteSession st id).2 = none
    ∧ getSession (deleteSession st id).1 id = none
    ∧ (∀ u, mapGet (deleteSession st id).1.urlToID u ≠ some id)
    ∧ (∀ j, j ≠ id → mapGet (deleteSession st id).1.sessions j = mapGet st.sessions j)
    ∧ (∀ p, p ∈ (deleteSession st id).1.urlToID ↔ p ∈ st.urlToID ∧ p.2 ≠ id)
    ∧ (deleteSession st id).1.variantToOut = st.variantToOut
    ∧ (deleteSession st id).1.assetMap = st.assetMap
    ∧ (getSession st id = none → (∀ p ∈ st.urlToID, p.2 ≠ id) →
        (deleteSession st id).1 = st)
    ∧ deleteSession (deleteSession st id).1 id = deleteSession st id := by
  intro st id
  refine ⟨rfl, rfl, rfl, mapGet_mapDel_self _ _, ?_, ?_, ?_, rfl, rfl, ?_, ?_⟩
  · intro u h
    have hm := mapGet_mem h
    simp only [deleteSession] at hm
    rw [List.mem_filter] at hm
    simp at hm
  · intro j hj
    exact mapGet_mapDel_other hj
  · intro p
    rw [deleteSession]
    simp [List.mem_filter]
  · intro h1 h2
    have hs : mapDel st.sessions id = st.sessions :=
      List.filter_eq_self.mpr (fun p hp => by simpa using mapGet_none_forall h1 p hp)
    have hu : st.urlToID.filter (fun p => p.2 ≠ id) = st.urlToID :=
      List.filter_eq_self.mpr (fun p hp => by simpa using h2 p hp)
    simp only [deleteSession]
    rw [hs, hu]
  · have A : ∀ (l : List (String × ConversionSession)), mapDel (mapDel l id) id = mapDel l id :=
      fun l => List.filter_eq_self.mpr (fun a ha => (List.mem_filter.mp ha).2)
    have B : ∀ (l : List (String × String)),
        (l.filter (fun p => p.2 ≠ id)).filter (fun p => p.2 ≠ id) =
          l.filter (fun p => p.2 ≠ id) :=
      fun l => List.filter_eq_self.mpr (fun a ha => (List.mem_filter.mp ha).2)
    simp [deleteSession, A, B]

/-- Witness for C10: deleting the absent id `ghost` from a one-session store
answers 200 `deleted` and leaves the store unchanged. -/
theorem handleDelete_idempotent_ok_witness :
    (handleDelete ⟨[("a", newSession "a" "u")], [("u", "a")], [], []⟩ "ghost").status = 200
    ∧ (deleteSession ⟨[("a", newSession "a" "u")], [("u", "a")], [], []⟩ "ghost").1 =
        ⟨[("a", newSession "a" "u")], [("u", "a")], [], []⟩ := by
  have h := handleDelete_idempotent_ok ⟨[("a", newSession "a" "u")], [("u", "a")], [], []⟩ "ghost"
  exact ⟨h.1, h.2.2.2.2.2.2.2.2.2.1 (by decide) (by decide)⟩

theorem mapGet_mapSet_self {α : Type} (m : List (String × α)) (key : String) (v : α) :
    mapGet (mapSet m key v) key = some v := by
  simp [mapSet, mapGet]

theorem getVariant_updateSession (m : MemoryStore) (s : ConversionSession) (k : String) :
    getVariant (updateSession m s) k = getVariant m k := by
  simp only [updateSession]
  split <;> rfl

theorem getSession_updateSession_self {m : MemoryStore} {s w : ConversionSession}
    (h : getSession m s.id = some w) : getSession (updateSession m s) s.id = some s := by
  simp only [updateSession, getSession] at *
  rw [h]
  exact mapGet_mapSet_self _ _ _

/-- C5: when the variant cache holds a non-empty output path for the request's
variant hash, `handleConvertReq` completes the session (state `completed`,
conversion progress 100, output path the cached one), enqueues nothing, and
answers 202 with status `completed` and queue position 0. -/
theorem handleConvertReq_variant_cache_hit (cfg : Config) (st : MemoryStore) (q : Queue)
    (cid quality startT endT apiKey jobID : String) (now : Nat)
    (s0 : ConversionSession) (out : String)
    (hcid : cid ≠ "")
    (hid : s0.id = cid)
    (hs : getSession st cid = some s0)
    (hclip : (parseClipBounds startT endT cfg.maxClipSeconds
        (if s0.metaDuration < 0 then 0 else s0.metaDuration)).2.2 = true)
    (hvar : getVariant st (hashString (hashString (canonicalVideoID s0.url) ++ "|" ++
        quality ++ "|" ++ startT ++ "|" ++ endT)) = some out)
    (hout : out ≠ "") :
    (handleConvertReq cfg st q cid quality startT endT apiKey jobID now).status = 202
    ∧ (handleConvertReq cfg st q cid quality startT endT apiKey jobID now).respStatus =
        "completed"
    ∧ (handleConvertReq cfg st q cid quality startT endT apiKey jobID now).queuePos = 0
    ∧ (handleConvertReq cfg st q cid quality startT endT apiKey jobID now).enq = []
    ∧ (handleConvertReq cfg st q cid quality startT endT apiKey jobID now).queue = q
    ∧ getSession (handleConvertReq cfg st q cid quality startT endT apiKey jobID now).store
        cid = some { s0 with
          assetHash := hashString (canonicalVideoID s0.url),
          variantHash := hashString (hashString (canonicalVideoID s0.url) ++ "|" ++
            quality ++ "|" ++ startT ++ "|" ++ endT),
          outputPath := out, state := "completed",
          downloadProgress := 100, conversionProgress := 100 } := by
  subst hid
  simp only [handleConvertReq, if_neg hcid, hs, hclip, Bool.not_true,
    getVariant_updateSession, hvar, Option.getD_some]
  simp only [hout, bne_iff_ne, ne_eq, not_false_eq_true, if_true, ite_true, if_false]
  refine ⟨rfl, rfl, rfl, rfl, rfl, ?_⟩
  exact getSession_updateSession_self (getSession_updateSession_self hs)

set_option maxRecDepth 1000000 in
/-- Witness for C5: a store whose variant cache holds `/out/x.mp3` for the
variant hash of (`https://youtu.be/abc`, quality 128, empty range) makes the
convert request answer `completed`. -/
theorem handleConvertReq_variant_cache_hit_witness :
    (handleConvertReq ⟨["youtube.com", "youtu.be"], 900, 3, "/data"⟩
      ⟨[("sid", newSession "sid" "https://youtu.be/abc")], [],
        [(hashString (hashString (canonicalVideoID "https://youtu.be/abc") ++ "|" ++ "128" ++
            "|" ++ "" ++ "|" ++ ""), "/out/x.mp3")], []⟩
      ⟨10, []⟩ "sid" "128" "" "" "" "j1" 0).respStatus = "completed" := by
  have h := handleConvertReq_variant_cache_hit
    ⟨["youtube.com", "youtu.be"], 900, 3, "/data"⟩
    ⟨[("sid", newSession "sid" "https://youtu.be/abc")], [],
      [(hashString (hashString (canonicalVideoID "https://youtu.be/abc") ++ "|" ++ "128" ++
          "|" ++ "" ++ "|" ++ ""), "/out/x.mp3")], []⟩
    ⟨10, []⟩ "sid" "128" "" "" "" "j1" 0
    (newSession "sid" "https://youtu.be/abc") "/out/x.mp3"
    (by decide) rfl rfl (by decide) rfl (by decide)
  exact h.2.1

theorem hashString_ne_empty (s : String) : hashString s ≠ "" := by
  simp only [hashString, sha1hexBytes]
  obtain ⟨h0, h1, h2, h3, h4⟩ :=
    sha1blocks (sha1pad (utf8Bytes s)) (1732584193, 4023233417, 2562383102, 271733878, 3285377520)
  intro h
  have hd := congrArg String.data h
  simp only [show ∀ n x, hexNat (n + 1) x = hexDigit ((x >>> (4 * n)) % 16) :: hexNat n x
    from fun _ _ => rfl] at hd
  simp at hd

theorem getSession_updateSession_other (m : MemoryStore) (s : ConversionSession) (k : String)
    (hk : k ≠ s.id) : getSession (updateSession m s) k = getSession m k := by
  simp only [updateSession, getSession]
  split
  · rfl
  · show mapGet (mapSet m.sessions s.id s) k = _
    simp only [mapSet, mapGet]
    rw [if_neg (Ne.symm hk)]
    exact mapGet_mapDel_other hk

theorem getSession_updateSession_isSome {m : MemoryStore} {k : String} {w : ConversionSession}
    (s : ConversionSession) (h : getSession m k = some w) :
    ∃ w', getSession (updateSession m s) k = some w' := by
  by_cases hk : k = s.id
  · subst hk
    exact ⟨s, getSession_updateSession_self h⟩
  · exact ⟨w, by rw [getSession_updateSession_other m s k hk, h]⟩

theorem getSession_updateSession_key (m : MemoryStore) (s w : ConversionSession) (k : String)
    (hk : s.id = k) (h : getSession m k = some w) : getSession (updateSession m s) k = some s := by
  subst hk
  exact getSession_updateSession_self h

theorem applyConvertProgress_fst_id :
    ∀ (ps : List Int) (st : MemoryStore) (s : ConversionSession),
      (applyConvertProgress st s ps).1.id = s.id := by
  intro ps
  induction ps with
  | nil => intro st s; rfl
  | cons p t ih => intro st s; exact ih _ _

theorem applyConvertProgress_fst_variantHash :
    ∀ (ps : List Int) (st : MemoryStore) (s : ConversionSession),
      (applyConvertProgress st s ps).1.variantHash = s.variantHash := by
  intro ps
  induction ps with
  | nil => intro st s; rfl
  | cons p t ih => intro st s; exact ih _ _

theorem applyConvertProgress_presence :
    ∀ (ps : List Int) (st : MemoryStore) (s : ConversionSession) (k : String)
      (w : ConversionSession), getSession st k = some w →
      ∃ w', getSession (applyConvertProgress st s ps).2 k = some w' := by
  intro ps
  induction ps with
  | nil => intro st s k w h; exact ⟨w, h⟩
  | cons p t ih =>
    intro st s k w h
    obtain ⟨w', hw'⟩ := getSession_updateSession_isSome
      { s with conversionProgress := p } h
    exact ih _ _ _ _ hw'

theorem getSession_setVariant (m : MemoryStore) (k v j : String) :
    getSession (setVariant m k v) j = getSession m j := rfl

theorem getVariant_setVariant_self (m : MemoryStore) (k v : String) :
    getVariant (setVariant m k v) k = some v := mapGet_mapSet_self _ _ _

theorem convert_success_tail (dir : String) (st2 : MemoryStore) (s5 : ConversionSession)
    (progress : List Int) (k : String) (hk : s5.id = k) (w : ConversionSession)
    (hw : getSession st2 k = some w) :
    (getSession (setVariant (updateSession (applyConvertProgress st2 s5 progress).2
        { (applyConvertProgress st2 s5 progress).1 with
            outputPath := dir ++ "/outputs/" ++ s5.variantHash ++ ".mp3",
            conversionProgress := 100, state := "completed" })
        s5.variantHash (dir ++ "/outputs/" ++ s5.variantHash ++ ".mp3")) k).map
      ConversionSession.variantHash = some s5.variantHash
    ∧ getVariant (setVariant (updateSession (applyConvertProgress st2 s5 progress).2
        { (applyConvertProgress st2 s5 progress).1 with
            outputPath := dir ++ "/outputs/" ++ s5.variantHash ++ ".mp3",
            conversionProgress := 100, state := "completed" })
        s5.variantHash (dir ++ "/outputs/" ++ s5.variantHash ++ ".mp3"))
        s5.variantHash = some (dir ++ "/outputs/" ++ s5.variantHash ++ ".mp3") := by
  subst hk
  obtain ⟨w', hw'⟩ := applyConvertProgress_presence progress st2 s5 s5.id w hw
  have hid7 : ({ (applyConvertProgress st2 s5 progress).1 with
      outputPath := dir ++ "/outputs/" ++ s5.variantHash ++ ".mp3",
      conversionProgress := 100, state := "completed" } : ConversionSession).id = s5.id := by
    show (applyConvertProgress st2 s5 progress).1.id = s5.id
    exact applyConvertProgress_fst_id _ _ _
  constructor
  · have hw'' : getSession (applyConvertProgress st2 s5 progress).2
        ({ (applyConvertProgress st2 s5 progress).1 with
            outputPath := dir ++ "/outputs/" ++ s5.variantHash ++ ".mp3",
            conversionProgress := 100, state := "completed" } : ConversionSession).id =
          some w' := by
      rw [hid7]
      exact hw'
    have key := getSession_updateSession_self hw''
    rw [getSession_setVariant, ← hid7, key]
    show some ((applyConvertProgress st2 s5 progress).1.variantHash) = _
    rw [applyConvertProgress_fst_variantHash]
  · exact getVariant_setVariant_self _ _ _

/-- C1: the variant fingerprint is the hex SHA-1 of
`asset_hash ++ "|" ++ quality ++ "|" ++ start ++ "|" ++ end` (empty strings
concatenated verbatim): (1) `handleConvertReq` stores exactly that hash on the
session in every branch past validation; (2) `handleConvert`, recomputing the
hash when the session lacks one, stores the same hash and writes the variant
cache under the same key; (3) equal `(asset_hash, quality, start, end)` tuples
give the identical hash, hence the identical variant-cache key. -/
theorem variantHash_formula :
    (∀ (cfg : Config) (st : MemoryStore) (q : Queue)
      (cid quality startT endT apiKey jobID : String) (now : Nat) (s0 : ConversionSession),
      cid ≠ "" → s0.id = cid → getSession st cid = some s0 →
      (parseClipBounds startT endT cfg.maxClipSeconds
        (if s0.metaDuration < 0 then 0 else s0.metaDuration)).2.2 = true →
      (getSession (handleConvertReq cfg st q cid quality startT endT apiKey jobID now).store
          cid).map ConversionSession.variantHash =
        some (hashString (hashString (canonicalVideoID s0.url) ++ "|" ++ quality ++ "|" ++
          startT ++ "|" ++ endT)))
    ∧ (∀ (cfg : Config) (st : MemoryStore) (job : Job) (progress : List Int)
        (s0 : ConversionSession),
        getSession st job.sessionID = some s0 → s0.id = job.sessionID →
        s0.variantHash = "" → s0.assetHash = "" → ¬ s0.sourcePath = "" →
        ¬ s0.state = "downloading" → ¬ s0.state = "preparing" → ¬ s0.state = "created" →
        (getSession (handleConvert cfg st job none progress).store job.sessionID).map
            ConversionSession.variantHash =
          some (hashString (hashString (canonicalVideoID s0.url) ++ "|" ++ job.quality ++
            "|" ++ job.startTime ++ "|" ++ job.endTime))
        ∧ getVariant (handleConvert cfg st job none progress).store
            (hashString (hashString (canonicalVideoID s0.url) ++ "|" ++ job.quality ++ "|" ++
              job.startTime ++ "|" ++ job.endTime)) =
          some (cfg.conversionsDir ++ "/outputs/" ++
            hashString (hashString (canonicalVideoID s0.url) ++ "|" ++ job.quality ++ "|" ++
              job.startTime ++ "|" ++ job.endTime) ++ ".mp3"))
    ∧ (∀ ah1 ah2 q1 q2 t1 t2 e1 e2 : String, ah1 = ah2 → q1 = q2 → t1 = t2 → e1 = e2 →
        hashString (ah1 ++ "|" ++ q1 ++ "|" ++ t1 ++ "|" ++ e1) =
          hashString (ah2 ++ "|" ++ q2 ++ "|" ++ t2 ++ "|" ++ e2)) := by
  refine ⟨?_, ?_, ?_⟩
  · intro cfg st q cid quality startT endT apiKey jobID now s0 hcid hid hs hclip
    subst hid
    have hs' : mapGet st.sessions s0.id = some s0 := hs
    simp only [handleConvertReq, if_neg hcid, hs, hclip, Bool.not_true, Bool.false_eq_true,
      if_false, getVariant_updateSession]
    split
    · simp [updateSession, getSession, hs', mapGet_mapSet_self]
    · split
      · simp [updateSession, getSession, hs', mapGet_mapSet_self]
      · split
        · simp [updateSession, getSession, hs', mapGet_mapSet_self]
        · repeat' split
          all_goals simp [updateSession, getSession, hs', mapGet_mapSet_self]
  · intro cfg st job progress s0 hs hid hvh hah hsp hstD hstP hstC
    simp only [handleConvert, hs, hah, hsp, hstD, hstP, hstC, hvh, if_true, if_false,
      ite_true, ite_false, or_self, or_false, false_or, if_neg (hashString_ne_empty _)]
    refine convert_success_tail cfg.conversionsDir _ _ progress job.sessionID hid ?w ?hw
    case hw =>
      rw [← hid]
      refine getSession_updateSession_key st _ s0 s0.id ?_ ?_
      · rfl
      · rw [hid]
        exact hs
  · intro ah1 ah2 q1 q2 t1 t2 e1 e2 h1 h2 h3 h4
    rw [h1, h2, h3, h4]

/-- Witness for C1: the request-side clause applied to a concrete one-session
store for `https://youtu.be/abc` with quality 128 and empty range. -/
theorem variantHash_formula_witness :
    (getSession (handleConvertReq ⟨["youtube.com", "youtu.be"], 900, 3, "/data"⟩
        ⟨[("sid", newSession "sid" "https://youtu.be/abc")], [], [], []⟩
        ⟨10, []⟩ "sid" "128" "" "" "" "j1" 0).store "sid").map
      ConversionSession.variantHash =
    some (hashString (hashString (canonicalVideoID "https://youtu.be/abc") ++ "|" ++ "128" ++
      "|" ++ "" ++ "|" ++ "")) := by
  exact variantHash_formula.1 ⟨["youtube.com", "youtu.be"], 900, 3, "/data"⟩
    ⟨[("sid", newSession "sid" "https://youtu.be/abc")], [], [], []⟩
    ⟨10, []⟩ "sid" "128" "" "" "" "j1" 0 (newSession "sid" "https://youtu.be/abc")
    (by decide) rfl rfl (by decide)

theorem mapGet_mapSet_other {α : Type} {m : List (String × α)} {key k : String} (v : α)
    (hk : k ≠ key) : mapGet (mapSet m key v) k = mapGet m k := by
  simp only [mapSet, mapGet]
  rw [if_neg (Ne.symm hk)]
  exact mapGet_mapDel_other hk

/-- C2: (a) when a prepare call observes an existing asset entry whose state is
non-empty and not `failed`, it enqueues no download job and leaves the queue
untouched; (b) two sequential prepare calls whose URLs share a canonical form,
starting from a store with no entry for that asset, enqueue exactly one
priority-10 download job (by the first call; the second call, observing the
`preparing` entry the first wrote, enqueues nothing) — at most one concurrent
download per asset fingerprint. -/
theorem prepare_asset_dedup :
    (∀ (cfg : Config) (st : MemoryStore) (q : Queue)
      (url id jid mtitle mthumb : String) (mdur : Int) (now : Nat) (p aState : String),
      url ≠ "" → isAllowedDomain url cfg.allowedDomains = true →
      getSession st id = none →
      getAsset st (hashString (canonicalVideoID url)) = some (p, aState) →
      aState ≠ "" → aState ≠ "failed" →
      (handlePrepare cfg st q url id jid mtitle mthumb mdur now).enq = []
      ∧ (handlePrepare cfg st q url id jid mtitle mthumb mdur now).queue = q
      ∧ (handlePrepare cfg st q url id jid mtitle mthumb mdur now).status = 202)
    ∧ (∀ (cfg : Config) (st : MemoryStore) (q : Queue)
        (url1 url2 id1 id2 jid1 jid2 mt1 mth1 mt2 mth2 : String) (md1 md2 : Int)
        (now1 now2 : Nat),
        url1 ≠ "" → url2 ≠ "" →
        isAllowedDomain url1 cfg.allowedDomains = true →
        isAllowedDomain url2 cfg.allowedDomains = true →
        canonicalVideoID url2 = canonicalVideoID url1 →
        getSession st id1 = none → getSession st id2 = none → id2 ≠ id1 →
        getAsset st (hashString (canonicalVideoID url1)) = none →
        q.jobs.length < q.capacity →
        (handlePrepare cfg st q url1 id1 jid1 mt1 mth1 md1 now1).status = 202
        ∧ (handlePrepare cfg st q url1 id1 jid1 mt1 mth1 md1 now1).enq =
            [⟨jid1, .download, id1, "", "", "", now1, 10, 0, ""⟩]
        ∧ (handlePrepare cfg (handlePrepare cfg st q url1 id1 jid1 mt1 mth1 md1 now1).store
            (handlePrepare cfg st q url1 id1 jid1 mt1 mth1 md1 now1).queue
            url2 id2 jid2 mt2 mth2 md2 now2).status = 202
        ∧ (handlePrepare cfg (handlePrepare cfg st q url1 id1 jid1 mt1 mth1 md1 now1).store
            (handlePrepare cfg st q url1 id1 jid1 mt1 mth1 md1 now1).queue
            url2 id2 jid2 mt2 mth2 md2 now2).enq = []
        ∧ (handlePrepare cfg (handlePrepare cfg st q url1 id1 jid1 mt1 mth1 md1 now1).store
            (handlePrepare cfg st q url1 id1 jid1 mt1 mth1 md1 now1).queue
            url2 id2 jid2 mt2 mth2 md2 now2).queue =
          (handlePrepare cfg st q url1 id1 jid1 mt1 mth1 md1 now1).queue) := by
  constructor
  · intro cfg st q url id jid mtitle mthumb mdur now p aState hurl hallow hid hasset hne1 hne2
    have hid' : mapGet st.sessions id = none := hid
    have hasset' : mapGet st.assetMap (hashString (canonicalVideoID url)) = some (p, aState) :=
      hasset
    simp only [handlePrepare, if_neg hurl, hallow, Bool.not_true, Bool.false_eq_true, if_false,
      newSession, createSession, updateSession, setURLMap, getAsset, getSession,
      mapGet_mapSet_self, hid', hasset', hne1, hne2]
    simp [hne1, hne2]
  · intro cfg st q url1 url2 id1 id2 jid1 jid2 mt1 mth1 mt2 mth2 md1 md2 now1 now2
      hurl1 hurl2 hallow1 hallow2 hcanon hid1 hid2 hne hasset hqf
    have hid1' : mapGet st.sessions id1 = none := hid1
    have hid2' : mapGet st.sessions id2 = none := hid2
    have hasset' : mapGet st.assetMap (hashString (canonicalVideoID url1)) = none := hasset
    have hql : ¬ (q.capacity ≤ q.jobs.length) := by omega
    simp only [handlePrepare, if_neg hurl1, if_neg hurl2, hallow1, hallow2, Bool.not_true,
      Bool.false_eq_true, if_false, hcanon, newSession, createSession, updateSession,
      setURLMap, setAsset, getAsset, getSession, enqueue, if_neg hql,
      mapGet_mapSet_self, hid1', hasset']
    simp [mapGet_mapSet_other, hne, hid2', mapGet_mapSet_self]

/-- Witness for C2: two prepares of `https://youtu.be/abc` against an empty
store and a capacity-5 queue — the first enqueues the priority-10 download
job, the second enqueues nothing and leaves the queue as the first left it. -/
theorem prepare_asset_dedup_witness :
    (handlePrepare ⟨["youtube.com", "youtu.be"], 900, 3, "/data"⟩ ⟨[], [], [], []⟩ ⟨5, []⟩
      "https://youtu.be/abc" "a" "j1" "" "" 0 0).enq =
      [⟨"j1", .download, "a", "", "", "", 0, 10, 0, ""⟩]
    ∧ (handlePrepare ⟨["youtube.com", "youtu.be"], 900, 3, "/data"⟩
        (handlePrepare ⟨["youtube.com", "youtu.be"], 900, 3, "/data"⟩ ⟨[], [], [], []⟩ ⟨5, []⟩
          "https://youtu.be/abc" "a" "j1" "" "" 0 0).store
        (handlePrepare ⟨["youtube.com", "youtu.be"], 900, 3, "/data"⟩ ⟨[], [], [], []⟩ ⟨5, []⟩
          "https://youtu.be/abc" "a" "j1" "" "" 0 0).queue
        "https://youtu.be/abc" "b" "j2" "" "" 0 1).enq = [] := by
  have h := prepare_asset_dedup.2 ⟨["youtube.com", "youtu.be"], 900, 3, "/data"⟩
    ⟨[], [], [], []⟩ ⟨5, []⟩ "https://youtu.be/abc" "https://youtu.be/abc"
    "a" "b" "j1" "j2" "" "" "" "" 0 0 0 1
    (by decide) (by decide) (by decide) (by decide) rfl rfl rfl (by decide) rfl (by decide)
  exact ⟨h.2.1, h.2.2.2.1⟩

theorem updateSession_variantToOut (m : MemoryStore) (s : ConversionSession) :
    (updateSession m s).variantToOut = m.variantToOut := by
  simp only [updateSession]
  split <;> rfl

theorem updateSession_assetMap (m : MemoryStore) (s : ConversionSession) :
    (updateSession m s).assetMap = m.assetMap := by
  simp only [updateSession]
  split <;> rfl

theorem updateSession_urlToID (m : MemoryStore) (s : ConversionSession) :
    (updateSession m s).urlToID = m.urlToID := by
  simp only [updateSession]
  split <;> rfl

theorem getSession_setAsset (m : MemoryStore) (k p s j : String) :
    getSession (setAsset m k p s) j = getSession m j := rfl

/-- Counterexample to C4: a prepare request against a capacity-0 queue is
answered 503 `queue full`, yet the store is not as it was before the request
(the session was created, the URL map set and the asset entry written before
the enqueue attempt). -/
theorem prepare_queue_full_mutates_counterexample :
    (handlePrepare ⟨["youtube.com", "youtu.be"], 900, 3, "/data"⟩ ⟨[], [], [], []⟩ ⟨0, []⟩
      "https://youtu.be/abc" "a" "j" "" "" 0 0).status = 503
    ∧ ¬ ((handlePrepare ⟨["youtube.com", "youtu.be"], 900, 3, "/data"⟩ ⟨[], [], [], []⟩ ⟨0, []⟩
      "https://youtu.be/abc" "a" "j" "" "" 0 0).store = ⟨[], [], [], []⟩) := by
  constructor
  · decide
  · decide

/-- C4 (amended): on queue-full both handlers respond 503 and enqueue nothing
(the queue is unchanged), but the mutations performed before the enqueue
attempt persist — prepare leaves the created session (state `created`, asset
hash set), its URL-map entry and the (`""`, `preparing`) asset entry, touching
no variant entry; convert leaves the session updated with the recomputed asset
and variant hashes, touching neither the variant nor the asset cache nor the
URL map. -/
theorem queue_full_503_premutations_persist :
    (∀ (cfg : Config) (st : MemoryStore) (q : Queue)
      (url id jid mtitle mthumb : String) (mdur : Int) (now : Nat),
      url ≠ "" → isAllowedDomain url cfg.allowedDomains = true →
      getSession st id = none →
      getAsset st (hashString (canonicalVideoID url)) = none →
      q.capacity ≤ q.jobs.length →
      (handlePrepare cfg st q url id jid mtitle mthumb mdur now).status = 503
      ∧ (handlePrepare cfg st q url id jid mtitle mthumb mdur now).queue = q
      ∧ (handlePrepare cfg st q url id jid mtitle mthumb mdur now).enq = []
      ∧ getSession (handlePrepare cfg st q url id jid mtitle mthumb mdur now).store id =
          some { newSession id url with
            metaTitle := mtitle, metaThumbnail := mthumb, metaDuration := mdur,
            state := "created", assetHash := hashString (canonicalVideoID url) }
      ∧ getAsset (handlePrepare cfg st q url id jid mtitle mthumb mdur now).store
          (hashString (canonicalVideoID url)) = some ("", "preparing")
      ∧ mapGet (handlePrepare cfg st q url id jid mtitle mthumb mdur now).store.urlToID url =
          some id
      ∧ (handlePrepare cfg st q url id jid mtitle mthumb mdur now).store.variantToOut =
          st.variantToOut)
    ∧ (∀ (cfg : Config) (st : MemoryStore) (q : Queue)
        (cid quality startT endT apiKey jobID : String) (now : Nat) (s0 : ConversionSession),
        cid ≠ "" → s0.id = cid → getSession st cid = some s0 →
        (parseClipBounds startT endT cfg.maxClipSeconds
          (if s0.metaDuration < 0 then 0 else s0.metaDuration)).2.2 = true →
        getVariant st (hashString (hashString (canonicalVideoID s0.url) ++ "|" ++
          quality ++ "|" ++ startT ++ "|" ++ endT)) = none →
        q.capacity ≤ q.jobs.length →
        (handleConvertReq cfg st q cid quality startT endT apiKey jobID now).status = 503
        ∧ (handleConvertReq cfg st q cid quality startT endT apiKey jobID now).queue = q
        ∧ (handleConvertReq cfg st q cid quality startT endT apiKey jobID now).enq = []
        ∧ getSession (handleConvertReq cfg st q cid quality startT endT apiKey jobID
            now).store cid = some { s0 with
              assetHash := hashString (canonicalVideoID s0.url),
              variantHash := hashString (hashString (canonicalVideoID s0.url) ++ "|" ++
                quality ++ "|" ++ startT ++ "|" ++ endT) }
        ∧ (handleConvertReq cfg st q cid quality startT endT apiKey jobID
            now).store.variantToOut = st.variantToOut
        ∧ (handleConvertReq cfg st q cid quality startT endT apiKey jobID
            now).store.assetMap = st.assetMap
        ∧ (handleConvertReq cfg st q cid quality startT endT apiKey jobID
            now).store.urlToID = st.urlToID) := by
  constructor
  · intro cfg st q url id jid mtitle mthumb mdur now hurl hallow hid hasset hfull
    have hid' : mapGet st.sessions id = none := hid
    have hasset' : mapGet st.assetMap (hashString (canonicalVideoID url)) = none := hasset
    simp only [handlePrepare, if_neg hurl, hallow, Bool.not_true, Bool.false_eq_true, if_false,
      newSession, createSession, updateSession, setURLMap, setAsset, getAsset, getSession,
      enqueue, if_pos hfull, mapGet_mapSet_self, hid', hasset']
    simp [mapGet_mapSet_self, newSession]
  · intro cfg st q cid quality startT endT apiKey jobID now s0 hcid hid hs hclip hvar hfull
    subst hid
    simp only [handleConvertReq, if_neg hcid, hs, hclip, Bool.not_true, Bool.false_eq_true,
      if_false, getVariant_updateSession, hvar, enqueue, if_pos hfull]
    refine ⟨by trivial, by trivial, by trivial, ?_, ?_, ?_, ?_⟩
    · refine getSession_updateSession_key st _ s0 s0.id ?_ ?_
      · rfl
      · exact hs
    · exact updateSession_variantToOut _ _
    · exact updateSession_assetMap _ _
    · exact updateSession_urlToID _ _

/-- Witness for the amended C4: the prepare clause applied to an empty store
and a capacity-0 queue. -/
theorem queue_full_503_premutations_persist_witness :
    (handlePrepare ⟨["youtube.com", "youtu.be"], 900, 3, "/data"⟩ ⟨[], [], [], []⟩ ⟨0, []⟩
      "https://youtu.be/abc" "a" "j" "" "" 0 0).status = 503
    ∧ getAsset (handlePrepare ⟨["youtube.com", "youtu.be"], 900, 3, "/data"⟩
        ⟨[], [], [], []⟩ ⟨0, []⟩ "https://youtu.be/abc" "a" "j" "" "" 0 0).store
        (hashString (canonicalVideoID "https://youtu.be/abc")) = some ("", "preparing") := by
  have h := queue_full_503_premutations_persist.1
    ⟨["youtube.com", "youtu.be"], 900, 3, "/data"⟩ ⟨[], [], [], []⟩ ⟨0, []⟩
    "https://youtu.be/abc" "a" "j" "" "" 0 0
    (by decide) (by decide) rfl rfl (by decide)
  exact ⟨h.1, h.2.2.2.2.1⟩

theorem getAsset_setAsset_self (m : MemoryStore) (k p s : String) :
    getAsset (setAsset m k p s) k = some (p, s) := mapGet_mapSet_self _ _ _

theorem applyDownloadProgress_fst_id :
    ∀ (ps : List Int) (st : MemoryStore) (s : ConversionSession),
      (applyDownloadProgress st s ps).1.id = s.id := by
  intro ps
  induction ps with
  | nil => intro st s; rfl
  | cons p t ih => intro st s; exact ih _ _

theorem applyDownloadProgress_presence :
    ∀ (ps : List Int) (st : MemoryStore) (s : ConversionSession) (k : String)
      (w : ConversionSession), getSession st k = some w →
      ∃ w', getSession (applyDownloadProgress st s ps).2 k = some w' := by
  intro ps
  induction ps with
  | nil => intro st s k w h; exact ⟨w, h⟩
  | cons p t ih =>
    intro st s k w h
    obtain ⟨w', hw'⟩ := getSession_updateSession_isSome
      { s with downloadProgress := p } h
    exact ih _ _ _ _ hw'

theorem applyDownloadProgress_state :
    ∀ (ps : List Int) (st : MemoryStore) (s w : ConversionSession),
      getSession st s.id = some w → w.state = s.state →
      (getSession (applyDownloadProgress st s ps).2 s.id).map ConversionSession.state =
        some s.state := by
  intro ps
  induction ps with
  | nil =>
    intro st s w h hw
    rw [show applyDownloadProgress st s [] = (s, st) from rfl, h]
    simp [hw]
  | cons p t ih =>
    intro st s w h hw
    have hkey : getSession (updateSession st { s with downloadProgress := p })
        ({ s with downloadProgress := p } : ConversionSession).id =
          some { s with downloadProgress := p } :=
      getSession_updateSession_key st _ w s.id rfl h
    exact ih _ _ _ hkey rfl

theorem applyConvertProgress_state :
    ∀ (ps : List Int) (st : MemoryStore) (s w : ConversionSession),
      getSession st s.id = some w → w.state = s.state →
      (getSession (applyConvertProgress st s ps).2 s.id).map ConversionSession.state =
        some s.state := by
  intro ps
  induction ps with
  | nil =>
    intro st s w h hw
    rw [show applyConvertProgress st s [] = (s, st) from rfl, h]
    simp [hw]
  | cons p t ih =>
    intro st s w h hw
    have hkey : getSession (updateSession st { s with conversionProgress := p })
        ({ s with conversionProgress := p } : ConversionSession).id =
          some { s with conversionProgress := p } :=
      getSession_updateSession_key st _ w s.id rfl h
    exact ih _ _ _ hkey rfl

theorem applyConvertProgress_assetMap :
    ∀ (ps : List Int) (st : MemoryStore) (s : ConversionSession),
      (applyConvertProgress st s ps).2.assetMap = st.assetMap := by
  intro ps
  induction ps with
  | nil => intro st s; rfl
  | cons p t ih =>
    intro st s
    rw [show applyConvertProgress st s (p :: t) =
      applyConvertProgress (updateSession st { s with conversionProgress := p })
        { s with conversionProgress := p } t from rfl]
    rw [ih, updateSession_assetMap]

theorem getSession_updateSession_key_map_state (m : MemoryStore)
    (s w : ConversionSession) (k : String) (hk : s.id = k) (h : getSession m k = some w) :
    (getSession (updateSession m s) k).map ConversionSession.state = some s.state := by
  rw [getSession_updateSession_key m s w k hk h]
  rfl

theorem applyDownloadProgress_state_key (ps : List Int) (st : MemoryStore)
    (s : ConversionSession) (k : String) (hk : s.id = k)
    (h : (getSession st k).map ConversionSession.state = some s.state) :
    (getSession (applyDownloadProgress st s ps).2 k).map ConversionSession.state =
      some s.state := by
  subst hk
  cases hm : getSession st s.id with
  | none => rw [hm] at h; exact absurd h (by simp)
  | some w =>
    rw [hm] at h
    exact applyDownloadProgress_state ps st s w hm (by injection h)

theorem applyConvertProgress_state_key (ps : List Int) (st : MemoryStore)
    (s : ConversionSession) (k : String) (hk : s.id = k)
    (h : (getSession st k).map ConversionSession.state = some s.state) :
    (getSession (applyConvertProgress st s ps).2 k).map ConversionSession.state =
      some s.state := by
  subst hk
  cases hm : getSession st s.id with
  | none => rw [hm] at h; exact absurd h (by simp)
  | some w =>
    rw [hm] at h
    exact applyConvertProgress_state ps st s w hm (by injection h)

theorem download_fail_tail (st1 : MemoryStore) (s2 : ConversionSession)
    (progress : List Int) (k e : String) (hk : s2.id = k) (w : ConversionSession)
    (hw : getSession st1 k = some w) :
    (getSession (setAsset (updateSession (applyDownloadProgress st1 s2 progress).2
        { (applyDownloadProgress st1 s2 progress).1 with state := "failed", errMsg := e })
        s2.assetHash "" "failed") k).map ConversionSession.state = some "failed"
    ∧ (getSession (setAsset (updateSession (applyDownloadProgress st1 s2 progress).2
        { (applyDownloadProgress st1 s2 progress).1 with state := "failed", errMsg := e })
        s2.assetHash "" "failed") k).map ConversionSession.errMsg = some e
    ∧ getAsset (setAsset (updateSession (applyDownloadProgress st1 s2 progress).2
        { (applyDownloadProgress st1 s2 progress).1 with state := "failed", errMsg := e })
        s2.assetHash "" "failed") s2.assetHash = some ("", "failed") := by
  subst hk
  obtain ⟨w', hw'⟩ := applyDownloadProgress_presence progress st1 s2 s2.id w hw
  have hid7 : ({ (applyDownloadProgress st1 s2 progress).1 with
      state := "failed", errMsg := e } : ConversionSession).id = s2.id := by
    show (applyDownloadProgress st1 s2 progress).1.id = s2.id
    exact applyDownloadProgress_fst_id _ _ _
  have hw'' : getSession (applyDownloadProgress st1 s2 progress).2
      ({ (applyDownloadProgress st1 s2 progress).1 with
          state := "failed", errMsg := e } : ConversionSession).id = some w' := by
    rw [hid7]
    exact hw'
  have key := getSession_updateSession_self hw''
  refine ⟨?_, ?_, getAsset_setAsset_self _ _ _ _⟩
  · rw [getSession_setAsset, ← hid7, key]
    rfl
  · rw [getSession_setAsset, ← hid7, key]
    rfl

theorem convert_fail_tail (st2 : MemoryStore) (s5 : ConversionSession)
    (progress : List Int) (k e : String) (hk : s5.id = k) (w : ConversionSession)
    (hw : getSession st2 k = some w) :
    (getSession (updateSession (applyConvertProgress st2 s5 progress).2
        { (applyConvertProgress st2 s5 progress).1 with state := "failed", errMsg := e })
        k).map ConversionSession.state = some "failed"
    ∧ (getSession (updateSession (applyConvertProgress st2 s5 progress).2
        { (applyConvertProgress st2 s5 progress).1 with state := "failed", errMsg := e })
        k).map ConversionSession.errMsg = some e
    ∧ (updateSession (applyConvertProgress st2 s5 progress).2
        { (applyConvertProgress st2 s5 progress).1 with
          state := "failed", errMsg := e }).assetMap = st2.assetMap := by
  subst hk
  obtain ⟨w', hw'⟩ := applyConvertProgress_presence progress st2 s5 s5.id w hw
  have hid7 : ({ (applyConvertProgress st2 s5 progress).1 with
      state := "failed", errMsg := e } : ConversionSession).id = s5.id := by
    show (applyConvertProgress st2 s5 progress).1.id = s5.id
    exact applyConvertProgress_fst_id _ _ _
  have hw'' : getSession (applyConvertProgress st2 s5 progress).2
      ({ (applyConvertProgress st2 s5 progress).1 with
          state := "failed", errMsg := e } : ConversionSession).id = some w' := by
    rw [hid7]
    exact hw'
  have key := getSession_updateSession_self hw''
  refine ⟨?_, ?_, ?_⟩
  · rw [← hid7, key]
    rfl
  · rw [← hid7, key]
    rfl
  · rw [updateSession_assetMap, applyConvertProgress_assetMap]

/-- C6: on a tool failure the attempt counter is incremented; while the
incremented count stays below `max_job_retries` the same job (attempt counter
bumped) is scheduled for re-enqueue after `min(2^attempt, 60)` seconds, the
error counter is untouched and the session is not failed (it stays in
`downloading`/`converting`); on exhaustion the session becomes `failed` with
the error message recorded and the error counter incremented, and the download
worker additionally resets the asset entry to (`""`, `failed`) while the
convert worker leaves the asset cache alone. -/
theorem worker_retry_backoff_and_exhaustion :
    (∀ (cfg : Config) (st : MemoryStore) (job : Job) (errMsg : String)
      (progress : List Int) (s0 : ConversionSession),
      getSession st job.sessionID = some s0 → s0.id = job.sessionID →
      job.attempts + 1 < cfg.maxJobRetries →
      (handleDownload cfg st job (some errMsg) progress).delayed =
        [(min (2 ^ (job.attempts + 1)) 60, { job with attempts := job.attempts + 1 })]
      ∧ (handleDownload cfg st job (some errMsg) progress).errInc = 0
      ∧ (getSession (handleDownload cfg st job (some errMsg) progress).store
          job.sessionID).map ConversionSession.state = some "downloading")
    ∧ (∀ (cfg : Config) (st : MemoryStore) (job : Job) (errMsg : String)
        (progress : List Int) (s0 : ConversionSession),
        getSession st job.sessionID = some s0 → s0.id = job.sessionID →
        ¬ s0.assetHash = "" →
        cfg.maxJobRetries ≤ job.attempts + 1 →
        (handleDownload cfg st job (some errMsg) progress).delayed = []
        ∧ (handleDownload cfg st job (some errMsg) progress).errInc = 1
        ∧ ((getSession (handleDownload cfg st job (some errMsg) progress).store
              job.sessionID).map ConversionSession.state = some "failed"
          ∧ (getSession (handleDownload cfg st job (some errMsg) progress).store
              job.sessionID).map ConversionSession.errMsg = some errMsg
          ∧ getAsset (handleDownload cfg st job (some errMsg) progress).store
              s0.assetHash = some ("", "failed")))
    ∧ (∀ (cfg : Config) (st : MemoryStore) (job : Job) (errMsg : String)
        (progress : List Int) (s0 : ConversionSession),
        getSession st job.sessionID = some s0 → s0.id = job.sessionID →
        ¬ s0.assetHash = "" → ¬ s0.variantHash = "" → ¬ s0.sourcePath = "" →
        ¬ s0.state = "downloading" → ¬ s0.state = "preparing" → ¬ s0.state = "created" →
        job.attempts + 1 < cfg.maxJobRetries →
        (handleConvert cfg st job (some errMsg) progress).delayed =
          [(min (2 ^ (job.attempts + 1)) 60, { job with attempts := job.attempts + 1 })]
        ∧ (handleConvert cfg st job (some errMsg) progress).errInc = 0
        ∧ (getSession (handleConvert cfg st job (some errMsg) progress).store
            job.sessionID).map ConversionSession.state = some "converting")
    ∧ (∀ (cfg : Config) (st : MemoryStore) (job : Job) (errMsg : String)
        (progress : List Int) (s0 : ConversionSession),
        getSession st job.sessionID = some s0 → s0.id = job.sessionID →
        ¬ s0.assetHash = "" → ¬ s0.variantHash = "" → ¬ s0.sourcePath = "" →
        ¬ s0.state = "downloading" → ¬ s0.state = "preparing" → ¬ s0.state = "created" →
        cfg.maxJobRetries ≤ job.attempts + 1 →
        (handleConvert cfg st job (some errMsg) progress).delayed = []
        ∧ (handleConvert cfg st job (some errMsg) progress).errInc = 1
        ∧ ((getSession (handleConvert cfg st job (some errMsg) progress).store
              job.sessionID).map ConversionSession.state = some "failed"
          ∧ (getSession (handleConvert cfg st job (some errMsg) progress).store
              job.sessionID).map ConversionSession.errMsg = some errMsg
          ∧ (handleConvert cfg st job (some errMsg) progress).store.assetMap =
              st.assetMap)) := by
  refine ⟨?_, ?_, ?_, ?_⟩
  · intro cfg st job errMsg progress s0 hs hid hlt
    simp only [handleDownload, hs, hlt, if_true, ite_true]
    refine ⟨by trivial, by trivial, ?_⟩
    rw [← hid]
    have hs0 : getSession st s0.id = some s0 := by
      rw [hid]
      exact hs
    by_cases hha : s0.assetHash = "" <;> simp only [hha, ite_true, ite_false] <;>
      · refine applyDownloadProgress_state_key progress _ _ s0.id ?_ ?_
        · rfl
        · refine getSession_updateSession_key_map_state st _ s0 s0.id ?_ hs0
          rfl
  · intro cfg st job errMsg progress s0 hs hid hah hge
    have hnl : ¬ (job.attempts + 1 < cfg.maxJobRetries) := not_lt.mpr hge
    have hs0 : getSession st s0.id = some s0 := by
      rw [hid]
      exact hs
    simp only [handleDownload, hs, hah, ite_false, ite_true, hnl, if_false]
    refine ⟨by trivial, by trivial, ?_⟩
    rw [← hid]
    refine download_fail_tail _ _ progress s0.id errMsg ?hk ?w2 ?hw2
    case hk => rfl
    case hw2 =>
      refine getSession_updateSession_key st _ s0 s0.id ?_ hs0
      rfl
  · intro cfg st job errMsg progress s0 hs hid hah hvh hsp hstD hstP hstC hlt
    have hs0 : getSession st s0.id = some s0 := by
      rw [hid]
      exact hs
    simp only [handleConvert, hs, hah, hvh, hsp, hstD, hstP, hstC, ite_false, ite_true,
      or_self, or_false, false_or, if_false, hlt, if_true]
    refine ⟨by trivial, by trivial, ?_⟩
    rw [← hid]
    refine applyConvertProgress_state_key progress _ _ s0.id ?_ ?_
    · rfl
    · refine getSession_updateSession_key_map_state st _ s0 s0.id ?_ hs0
      rfl
  · intro cfg st job errMsg progress s0 hs hid hah hvh hsp hstD hstP hstC hge
    have hnl : ¬ (job.attempts + 1 < cfg.maxJobRetries) := not_lt.mpr hge
    have hs0 : getSession st s0.id = some s0 := by
      rw [hid]
      exact hs
    simp only [handleConvert, hs, hah, hvh, hsp, hstD, hstP, hstC, ite_false, ite_true,
      or_self, or_false, false_or, if_false, hnl]
    refine ⟨by trivial, by trivial, ?_⟩
    rw [← hid]
    rw [show st.assetMap =
      (updateSession st ({ s0 with state := "converting" } : ConversionSession)).assetMap
      from (updateSession_assetMap _ _).symm]
    refine convert_fail_tail _ _ progress s0.id errMsg ?hk4 ?w4 ?hw4
    case hk4 => rfl
    case hw4 =>
      refine getSession_updateSession_key st _ s0 s0.id ?_ hs0
      rfl

/-- Witness for C6: a first download failure (attempts 0 of 3) schedules a
2-second-backoff retry of the same job with attempt counter 1 and does not
touch the error counter. -/
theorem worker_retry_backoff_and_exhaustion_witness :
    (handleDownload ⟨["youtube.com"], 900, 3, "/data"⟩
      ⟨[("s1", { newSession "s1" "u" with assetHash := "h1" })], [], [], []⟩
      ⟨"j", .download, "s1", "", "", "", 0, 10, 0, ""⟩ (some "boom") []).delayed =
      [(2, ⟨"j", .download, "s1", "", "", "", 0, 10, 1, ""⟩)]
    ∧ (handleDownload ⟨["youtube.com"], 900, 3, "/data"⟩
      ⟨[("s1", { newSession "s1" "u" with assetHash := "h1" })], [], [], []⟩
      ⟨"j", .download, "s1", "", "", "", 0, 10, 0, ""⟩ (some "boom") []).errInc = 0 := by
  have h := worker_retry_backoff_and_exhaustion.1 ⟨["youtube.com"], 900, 3, "/data"⟩
    ⟨[("s1", { newSession "s1" "u" with assetHash := "h1" })], [], [], []⟩
    ⟨"j", .download, "s1", "", "", "", 0, 10, 0, ""⟩ "boom" []
    { newSession "s1" "u" with assetHash := "h1" } rfl rfl (by decide)
  exact ⟨h.1, h.2.1⟩

theorem jobStrictBefore_iff (a b : Job) :
    jobStrictBefore a b = true ↔
      a.priority > b.priority ∨ (a.priority = b.priority ∧ a.enqueuedAt < b.enqueuedAt) := by
  simp [jobStrictBefore]

theorem jobOrd_refl (a : Job) : jobOrd a a := Or.inr ⟨rfl, le_refl _⟩

theorem jobOrd_trans {a b c : Job} (h1 : jobOrd a b) (h2 : jobOrd b c) : jobOrd a c := by
  rcases h1 with h1 | ⟨h1, h1t⟩ <;> rcases h2 with h2 | ⟨h2, h2t⟩ <;>
    simp only [jobOrd] <;> omega

theorem jobStrict_imp_ord {a b : Job} (h : jobStrictBefore a b = true) : jobOrd a b := by
  rw [jobStrictBefore_iff] at h
  rcases h with h | ⟨h, ht⟩
  · exact Or.inl h
  · exact Or.inr ⟨h, le_of_lt ht⟩

theorem not_strict_imp_ord {a b : Job} (h : ¬ jobStrictBefore b a = true) : jobOrd a b := by
  rw [jobStrictBefore_iff] at h
  simp only [jobOrd]
  omega

theorem selectEarliest_mem (j : Job) (rest : List Job) :
    selectEarliest j rest ∈ j :: rest := by
  induction rest generalizing j with
  | nil => simp [selectEarliest]
  | cons x t ih =>
    rw [show selectEarliest j (x :: t) =
      selectEarliest (if x.enqueuedAt < j.enqueuedAt then x else j) t from rfl]
    have h := ih (if x.enqueuedAt < j.enqueuedAt then x else j)
    rcases List.mem_cons.mp h with he | ht
    · rw [he]
      split <;> simp
    · simp [List.mem_cons.mpr (Or.inr ht)]

theorem exists_first_split {e : Job} :
    ∀ {l : List Job}, e ∈ l → ∃ s t, l = s ++ e :: t ∧ e ∉ s := by
  intro l
  induction l with
  | nil => simp
  | cons y ys ih =>
    intro h
    by_cases hy : y = e
    · subst hy
      exact ⟨[], ys, rfl, by simp⟩
    · have he : e ∈ ys := by
        rcases List.mem_cons.mp h with rfl | h'
        · exact absurd rfl hy
        · exact h'
      obtain ⟨s, t, hst, hns⟩ := ih he
      exact ⟨y :: s, t, by rw [hst]; rfl, by simp [hns, Ne.symm hy]⟩

theorem strict_of_ord_of_ne_key {x e : Job} (h : jobOrd x e)
    (hk : ¬ (x.priority = e.priority ∧ x.enqueuedAt = e.enqueuedAt)) :
    jobStrictBefore x e = true := by
  rw [jobStrictBefore_iff]
  rcases h with h | ⟨h, ht⟩
  · exact Or.inl h
  · exact Or.inr ⟨h, by omega⟩

theorem not_strict_of_ord {e x : Job} (h : jobOrd e x) : ¬ jobStrictBefore x e = true := by
  rw [jobStrictBefore_iff]
  rcases h with h | ⟨h, ht⟩ <;> omega

theorem length_swapJ (l : List Job) (i j : Nat) : (swapJ l i j).length = l.length := by
  simp [swapJ]

theorem getJ_eq_getElem {l : List Job} {i : Nat} (h : i < l.length) :
    getJ l i = l.get ⟨i, h⟩ := by
  unfold getJ
  rw [List.getD_eq_getElem l defaultJob h]
  rfl

theorem getJ_swapJ {l : List Job} {i j k : Nat} (hi : i < l.length) (hj : j < l.length)
    (hk : k < l.length) :
    getJ (swapJ l i j) k =
      if k = j then getJ l i else if k = i then getJ l j else getJ l k := by
  unfold swapJ
  rw [getJ_eq_getElem (show k < ((l.set i (getJ l j)).set j (getJ l i)).length by
    simpa using hk)]
  simp only [List.get_eq_getElem, List.getElem_set]
  by_cases h1 : j = k <;> by_cases h2 : i = k <;>
    simp [h1, h2, getJ_eq_getElem hk, eq_comm]

theorem swapJ_perm {l : List Job} {i j : Nat} (hi : i < l.length) (hj : j < l.length) :
    (swapJ l i j).Perm l := by
  rw [List.perm_iff_count]
  intro a
  unfold swapJ
  have hj' : j < (l.set i (getJ l j)).length := by simpa using hj
  rw [List.count_set _ _ _ _ hj', List.count_set _ _ _ _ hi]
  rw [List.getElem_set]
  have e1 : getJ l j = l[j] := by rw [getJ_eq_getElem hj]; rfl
  have e2 : getJ l i = l[i] := by rw [getJ_eq_getElem hi]; rfl
  simp only [e1, e2, ite_self]
  by_cases ha : (l[i] == a) = true
  · have h1 : 0 < List.count a l := by
      have hia : l[i] = a := by simpa using ha
      exact List.count_pos_iff.mpr (hia ▸ List.getElem_mem hi)
    by_cases hb : (l[j] == a) = true <;> simp [ha, hb] <;> omega
  · by_cases hb : (l[j] == a) = true
    · have h1 : 0 < List.count a l := by
        have hjb : l[j] = a := by simpa using hb
        exact List.count_pos_iff.mpr (hjb ▸ List.getElem_mem hj)
      simp [ha, hb] <;> omega
    · simp [ha, hb]

theorem heapLess_eq_jobStrictBefore (a b : Job) :
    heapLess a b = jobStrictBefore a b := by
  simp only [heapLess, jobStrictBefore]
  by_cases h : a.priority = b.priority
  · simp [h]
  · simp [h]

theorem strict_asymm {a b : Job} (h : jobStrictBefore a b = true) :
    jobStrictBefore b a = false := by
  cases hb : jobStrictBefore b a
  · rfl
  · exfalso
    rw [jobStrictBefore_iff] at h hb
    omega

theorem strict_false_of_ord {a b : Job} (h : jobOrd b a) :
    jobStrictBefore a b = false := by
  cases hb : jobStrictBefore a b
  · rfl
  · exact absurd hb (not_strict_of_ord h)

theorem ord_of_strict_false {a b : Job} (h : jobStrictBefore a b = false) :
    jobOrd b a := by
  apply not_strict_imp_ord
  rw [h]
  simp

theorem strict_of_strict_ord {a b c : Job} (h1 : jobStrictBefore a b = true)
    (h2 : jobOrd b c) : jobStrictBefore a c = true := by
  rw [jobStrictBefore_iff] at h1 ⊢
  simp only [jobOrd] at h2
  omega

theorem strict_of_ord_strict {a b c : Job} (h1 : jobOrd a b)
    (h2 : jobStrictBefore b c = true) : jobStrictBefore a c = true := by
  rw [jobStrictBefore_iff] at h2 ⊢
  simp only [jobOrd] at h1
  omega

theorem parentIdx_lt {j : Nat} (h : 0 < j) : parentIdx j < j := by
  simp only [parentIdx]
  omega

theorem parentIdx_eq_iff {c i : Nat} (hc : 0 < c) :
    parentIdx c = i ↔ c = 2 * i + 1 ∨ c = 2 * i + 2 := by
  simp only [parentIdx]
  omega

theorem heapLess_false_ord {a b : Job} (h : heapLess a b = false) : jobOrd b a := by
  rw [heapLess_eq_jobStrictBefore] at h
  exact ord_of_strict_false h

theorem heapLess_false_of_ord {a b : Job} (h : jobOrd b a) : heapLess a b = false := by
  rw [heapLess_eq_jobStrictBefore]
  exact strict_false_of_ord h

theorem heapLess_true_strict {a b : Job} (h : heapLess a b = true) :
    jobStrictBefore a b = true := by
  rwa [heapLess_eq_jobStrictBefore] at h

theorem upN_spec : ∀ (f : Nat) (l : List Job) (j : Nat), j ≤ f → j < l.length →
    upInv l j → isHeap (upN f l j) ∧ (upN f l j).Perm l := by
  intro f
  induction f with
  | zero =>
    intro l j hjf hjl hinv
    have hj0 : j = 0 := Nat.le_zero.mp hjf
    subst hj0
    refine ⟨?_, List.Perm.refl _⟩
    intro k hk0 hkl
    exact hinv.1 k hk0 hkl (by omega)
  | succ f ih =>
    intro l j hjf hjl hinv
    rw [show upN (f + 1) l j =
      (if (j - 1) / 2 == j || !heapLess (getJ l j) (getJ l ((j - 1) / 2)) then l
       else upN f (swapJ l ((j - 1) / 2) j) ((j - 1) / 2)) from rfl]
    split
    · next hbreak =>
      refine ⟨?_, List.Perm.refl _⟩
      intro k hk0 hkl
      by_cases hkj : k = j
      · subst hkj
        have hne : ((k - 1) / 2 == k) = false := by
          simp only [beq_eq_false_iff_ne, ne_eq]
          omega
        rw [hne, Bool.false_or] at hbreak
        show heapLess (getJ l k) (getJ l ((k - 1) / 2)) = false
        cases h : heapLess (getJ l k) (getJ l ((k - 1) / 2))
        · rfl
        · rw [h] at hbreak
          simp at hbreak
      · exact hinv.1 k hk0 hkl hkj
    · next hcont =>
      have hij : (j - 1) / 2 ≠ j := by
        intro h
        exact hcont (by rw [h]; simp)
      have hless : heapLess (getJ l j) (getJ l ((j - 1) / 2)) = true := by
        cases h : heapLess (getJ l j) (getJ l ((j - 1) / 2))
        · exact absurd (by rw [h]; simp) hcont
        · rfl
      have hj0 : 0 < j := by
        rcases Nat.eq_zero_or_pos j with rfl | h
        · exact absurd (by decide) hij
        · exact h
      have hi_lt : (j - 1) / 2 < j := by omega
      have hil : (j - 1) / 2 < l.length := lt_trans hi_lt hjl
      have hf : (j - 1) / 2 ≤ f := by omega
      have hlen' : (j - 1) / 2 < (swapJ l ((j - 1) / 2) j).length := by
        rw [length_swapJ]
        exact hil
      have hinv' : upInv (swapJ l ((j - 1) / 2) j) ((j - 1) / 2) := by
        constructor
        · intro k hk0 hkl' hki
          rw [length_swapJ] at hkl'
          have hpk_lt : parentIdx k < k := parentIdx_lt hk0
          have hpk_len : parentIdx k < l.length := lt_trans hpk_lt hkl'
          rw [getJ_swapJ hil hjl hkl', getJ_swapJ hil hjl hpk_len]
          by_cases hkj : k = j
          · -- cursor slot versus its parent: the swap restored this edge
            have hpkij : parentIdx k ≠ j := by
              rw [hkj]
              exact hij
            have hpki : parentIdx k = (j - 1) / 2 := by rw [hkj]; rfl
            rw [if_pos hkj, if_neg hpkij, if_pos hpki]
            apply heapLess_false_of_ord
            exact jobStrict_imp_ord (heapLess_true_strict hless)
          · rw [if_neg hkj, if_neg hki]
            by_cases hpki : parentIdx k = (j - 1) / 2
            · -- sibling of the cursor: it respected the parent, which moved up
              have hpkj : parentIdx k ≠ j := by
                rw [hpki]
                exact hij
              rw [if_neg hpkj, if_pos hpki]
              have h1 : heapLess (getJ l k) (getJ l ((j - 1) / 2)) = false := by
                have := hinv.1 k hk0 hkl' hkj
                rwa [hpki] at this
              apply heapLess_false_of_ord
              apply jobStrict_imp_ord
              exact strict_of_strict_ord (heapLess_true_strict hless)
                (heapLess_false_ord h1)
            · by_cases hpkj : parentIdx k = j
              · -- child of the cursor: invariant part (b) at the old state
                rw [if_pos hpkj]
                have := hinv.2 k hk0 hkl' hpkj hj0
                rwa [show parentIdx j = (j - 1) / 2 from rfl] at this
              · rw [if_neg hpkj, if_neg hpki]
                exact hinv.1 k hk0 hkl' hkj
        · intro c hc0 hcl' hpc hi0
          rw [length_swapJ] at hcl'
          have hpi_lt : parentIdx ((j - 1) / 2) < (j - 1) / 2 := parentIdx_lt hi0
          have hpi_len : parentIdx ((j - 1) / 2) < l.length := lt_trans hpi_lt hil
          have hpij : parentIdx ((j - 1) / 2) ≠ j := by omega
          have hpii : parentIdx ((j - 1) / 2) ≠ (j - 1) / 2 := by omega
          rw [getJ_swapJ hil hjl hcl', getJ_swapJ hil hjl hpi_len,
            if_neg hpij, if_neg hpii]
          by_cases hcj : c = j
          · rw [if_pos hcj]
            exact hinv.1 ((j - 1) / 2) hi0 hil hij
          · have hci : c ≠ (j - 1) / 2 := by
              have := parentIdx_lt hc0
              omega
            rw [if_neg hcj, if_neg hci]
            have h1 : heapLess (getJ l c) (getJ l ((j - 1) / 2)) = false := by
              have := hinv.1 c hc0 hcl' hcj
              rwa [hpc] at this
            have h2 : heapLess (getJ l ((j - 1) / 2))
                (getJ l (parentIdx ((j - 1) / 2))) = false :=
              hinv.1 ((j - 1) / 2) hi0 hil hij
            apply heapLess_false_of_ord
            exact jobOrd_trans (heapLess_false_ord h2) (heapLess_false_ord h1)
      obtain ⟨hH, hP⟩ := ih _ _ hf hlen' hinv'
      exact ⟨hH, hP.trans (swapJ_perm hil hjl)⟩

theorem getJ_append_lt {l : List Job} {x : Job} {k : Nat} (h : k < l.length) :
    getJ (l ++ [x]) k = getJ l k := by
  rw [getJ_eq_getElem (show k < (l ++ [x]).length by simp; omega), getJ_eq_getElem h]
  simp only [List.get_eq_getElem, List.getElem_append]
  rw [dif_pos h]

theorem upInv_append_one {l : List Job} {x : Job} (hh : isHeap l) :
    upInv (l ++ [x]) l.length := by
  constructor
  · intro k hk0 hkl hkj
    have hkl' : k < l.length := by
      simp only [List.length_append, List.length_cons, List.length_nil] at hkl
      omega
    have hpk : parentIdx k < l.length := lt_trans (parentIdx_lt hk0) hkl'
    rw [getJ_append_lt hkl', getJ_append_lt hpk]
    exact hh k hk0 hkl'
  · intro c hc0 hcl hpc hj0
    exfalso
    simp only [List.length_append, List.length_cons, List.length_nil] at hcl
    simp only [parentIdx] at hpc
    omega

theorem heapPush_isHeap {l : List Job} {x : Job} (hh : isHeap l) :
    isHeap (heapPush l x) ∧ (heapPush l x).Perm (x :: l) := by
  have hlen : l.length < (l ++ [x]).length := by simp
  have h := upN_spec l.length (l ++ [x]) l.length (le_refl _) hlen (upInv_append_one hh)
  exact ⟨h.1, h.2.trans (List.perm_append_singleton x l)⟩

theorem downN_step {f : Nat} {l : List Job} {i n j : Nat} (hb : 2 * i + 1 < n)
    (hj : j = (if 2 * i + 1 + 1 < n && heapLess (getJ l (2 * i + 1 + 1)) (getJ l (2 * i + 1))
      then 2 * i + 1 + 1 else 2 * i + 1)) :
    downN (f + 1) l i n =
      if heapLess (getJ l j) (getJ l i) then downN f (swapJ l i j) j n else l := by
  subst hj
  simp only [downN]
  rw [if_neg (by omega)]
  cases hx : heapLess
      (getJ l (if 2 * i + 1 + 1 < n && heapLess (getJ l (2 * i + 1 + 1)) (getJ l (2 * i + 1))
        then 2 * i + 1 + 1 else 2 * i + 1))
      (getJ l i) <;>
    simp [hx]

theorem chosen_child_spec {l : List Job} {i n : Nat} (hb : 2 * i + 1 < n) :
    ∀ j, j = (if 2 * i + 1 + 1 < n && heapLess (getJ l (2 * i + 1 + 1)) (getJ l (2 * i + 1))
      then 2 * i + 1 + 1 else 2 * i + 1) →
    (j = 2 * i + 1 ∨ j = 2 * i + 2) ∧ j < n ∧
      ∀ s, 0 < s → s < n → parentIdx s = i → s ≠ j → jobOrd (getJ l j) (getJ l s) := by
  intro j hj
  by_cases hch : (2 * i + 1 + 1 < n &&
      heapLess (getJ l (2 * i + 1 + 1)) (getJ l (2 * i + 1))) = true
  · rw [if_pos hch] at hj
    subst hj
    rw [Bool.and_eq_true, decide_eq_true_eq] at hch
    refine ⟨Or.inr rfl, by omega, ?_⟩
    intro s hs0 hsn hps hsj
    have hs' : s = 2 * i + 1 := by
      rcases (parentIdx_eq_iff hs0).mp hps with h | h
      · exact h
      · omega
    subst hs'
    exact jobStrict_imp_ord (heapLess_true_strict hch.2)
  · rw [if_neg hch] at hj
    subst hj
    refine ⟨Or.inl rfl, by omega, ?_⟩
    intro s hs0 hsn hps hsj
    have hs' : s = 2 * i + 2 := by
      rcases (parentIdx_eq_iff hs0).mp hps with h | h
      · omega
      · exact h
    subst hs'
    rw [Bool.and_eq_true, decide_eq_true_eq, not_and_or] at hch
    rcases hch with hch | hch
    · omega
    · have hr : heapLess (getJ l (2 * i + 1 + 1)) (getJ l (2 * i + 1)) = false := by
        cases hx : heapLess (getJ l (2 * i + 1 + 1)) (getJ l (2 * i + 1))
        · rfl
        · exact absurd hx hch
      exact heapLess_false_ord (by rwa [show 2 * i + 1 + 1 = 2 * i + 2 from rfl] at hr)

theorem downN_spec : ∀ (f : Nat) (l : List Job) (i n : Nat), n ≤ f + i → n ≤ l.length →
    downInv l n i →
    isHeapBelow (downN f l i n) n ∧ (downN f l i n).Perm l ∧
      (∀ k, n ≤ k → k < l.length → getJ (downN f l i n) k = getJ l k) := by
  intro f
  induction f with
  | zero =>
    intro l i n hnf hnl hinv
    refine ⟨?_, List.Perm.refl _, fun k _ _ => rfl⟩
    intro k hk0 hkn
    have hpk : parentIdx k ≠ i := by
      have := parentIdx_lt hk0
      omega
    exact hinv.1 k hk0 hkn hpk
  | succ f ih =>
    intro l i n hnf hnl hinv
    by_cases hb1 : n ≤ 2 * i + 1
    · rw [show downN (f + 1) l i n = l from by simp [downN, hb1]]
      refine ⟨?_, List.Perm.refl _, fun k _ _ => rfl⟩
      intro k hk0 hkn
      have hpk : parentIdx k ≠ i := by
        intro h
        rcases (parentIdx_eq_iff hk0).mp h with h' | h' <;> omega
      exact hinv.1 k hk0 hkn hpk
    · have hb : 2 * i + 1 < n := by omega
      obtain ⟨j, hjdef⟩ : ∃ j, j = (if 2 * i + 1 + 1 < n &&
          heapLess (getJ l (2 * i + 1 + 1)) (getJ l (2 * i + 1))
          then 2 * i + 1 + 1 else 2 * i + 1) := ⟨_, rfl⟩
      obtain ⟨hj2, hjn, hsib⟩ := chosen_child_spec hb j hjdef
      rw [downN_step hb hjdef]
      have hij_lt : i < j := by rcases hj2 with rfl | rfl <;> omega
      have hpj : parentIdx j = i := by
        rcases hj2 with rfl | rfl <;> (rw [parentIdx_eq_iff (by omega)]) <;> omega
      have hjl : j < l.length := lt_of_lt_of_le hjn hnl
      have hil : i < l.length := lt_trans hij_lt hjl
      cases hless : heapLess (getJ l j) (getJ l i) with
      | false =>
        rw [if_neg (show ¬ (false = true) by simp)]
        refine ⟨?_, List.Perm.refl _, fun k _ _ => rfl⟩
        intro k hk0 hkn
        by_cases hpk : parentIdx k = i
        · by_cases hkj : k = j
          · subst hkj
            rw [hpj]
            exact hless
          · have h1 := hsib k hk0 hkn hpk hkj
            have h2 : jobOrd (getJ l i) (getJ l j) := heapLess_false_ord hless
            rw [hpk]
            exact heapLess_false_of_ord (jobOrd_trans h2 h1)
        · exact hinv.1 k hk0 hkn hpk
      | true =>
        rw [if_pos (show (true : Bool) = true from rfl)]
        have hnf' : n ≤ f + j := by omega
        have hnl' : n ≤ (swapJ l i j).length := by
          rw [length_swapJ]
          exact hnl
        have hinv' : downInv (swapJ l i j) n j := by
          constructor
          · intro k hk0 hkn hpkj
            have hpk_lt : parentIdx k < k := parentIdx_lt hk0
            have hkl : k < l.length := lt_of_lt_of_le hkn hnl
            have hpk_len : parentIdx k < l.length := lt_trans hpk_lt hkl
            rw [getJ_swapJ hil hjl hkl, getJ_swapJ hil hjl hpk_len]
            by_cases hkj : k = j
            · have hpki : parentIdx k = i := by rw [hkj]; exact hpj
              have hpkij : parentIdx k ≠ j := by omega
              rw [if_pos hkj, if_neg hpkij, if_pos hpki]
              exact heapLess_false_of_ord
                (jobStrict_imp_ord (heapLess_true_strict hless))
            · by_cases hki : k = i
              · have hi0 : 0 < i := by omega
                have hpki_ne_i : parentIdx k ≠ i := by omega
                rw [if_neg hkj, if_pos hki, if_neg hpkj, if_neg hpki_ne_i]
                rw [hki]
                exact hinv.2 j (by omega) hjn hpj hi0
              · rw [if_neg hkj, if_neg hki]
                by_cases hpki : parentIdx k = i
                · rw [if_neg hpkj, if_pos hpki]
                  exact heapLess_false_of_ord (hsib k hk0 hkn hpki hkj)
                · rw [if_neg hpkj, if_neg hpki]
                  exact hinv.1 k hk0 hkn hpki
          · intro c hc0 hcn hpc hj0
            have hcl : c < l.length := lt_of_lt_of_le hcn hnl
            have hc_gt : j < c := by
              have := parentIdx_lt hc0
              omega
            have hcj : c ≠ j := by omega
            have hci : c ≠ i := by omega
            rw [hpj, getJ_swapJ hil hjl hcl, getJ_swapJ hil hjl hil,
              if_neg hcj, if_neg hci, if_neg (show i ≠ j by omega), if_pos rfl]
            have h := hinv.1 c hc0 hcn (show parentIdx c ≠ i by omega)
            rwa [hpc] at h
        obtain ⟨hH, hP, hU⟩ := ih (swapJ l i j) j n hnf' hnl' hinv'
        refine ⟨hH, hP.trans (swapJ_perm hil hjl), ?_⟩
        intro k hkn hkl
        rw [hU k hkn (by rw [length_swapJ]; exact hkl)]
        rw [getJ_swapJ hil hjl hkl]
        rw [if_neg (by omega), if_neg (by omega)]

theorem isHeap_root_min {l : List Job} (hh : isHeap l) :
    ∀ k, k < l.length → jobOrd (getJ l 0) (getJ l k) := by
  intro k
  induction k using Nat.strong_induction_on with
  | _ k ih =>
    intro hk
    rcases Nat.eq_zero_or_pos k with rfl | hk0
    · exact jobOrd_refl _
    · have hp := parentIdx_lt hk0
      have h1 := ih (parentIdx k) hp (lt_trans hp hk)
      have h2 : jobOrd (getJ l (parentIdx k)) (getJ l k) :=
        heapLess_false_ord (hh k hk0 hk)
      exact jobOrd_trans h1 h2

theorem getJ_take {l : List Job} {n k : Nat} (hk : k < n) (hl : k < l.length) :
    getJ (l.take n) k = getJ l k := by
  have h : k < (l.take n).length := by
    rw [List.length_take]
    exact lt_min hk hl
  rw [getJ_eq_getElem h, getJ_eq_getElem hl]
  simp [List.getElem_take]

theorem heapPopL_spec {l : List Job} (hne : 0 < l.length) (hh : isHeap l) :
    (heapPopL l).1 = getJ l 0 ∧ isHeap (heapPopL l).2 ∧
      ((heapPopL l).1 :: (heapPopL l).2).Perm l ∧
      (heapPopL l).2.length = l.length - 1 := by
  obtain ⟨n, hn⟩ : ∃ n, l.length = n + 1 := ⟨l.length - 1, by omega⟩
  have hnl : n < l.length := by omega
  have hinv : downInv (swapJ l 0 n) n 0 := by
    constructor
    · intro k hk0 hkn hpk
      have hkl : k < l.length := by omega
      have hpk_lt : parentIdx k < k := parentIdx_lt hk0
      have hpk_len : parentIdx k < l.length := by omega
      rw [getJ_swapJ hne hnl hkl, getJ_swapJ hne hnl hpk_len]
      rw [if_neg (show k ≠ n by omega), if_neg (show k ≠ 0 by omega),
        if_neg (show parentIdx k ≠ n by omega), if_neg hpk]
      exact hh k hk0 hkl
    · intro c hc0 hcn hpc hi0
      exact absurd hi0 (lt_irrefl 0)
  have hswl : n ≤ (swapJ l 0 n).length := by
    rw [length_swapJ]
    omega
  obtain ⟨hH, hP, hU⟩ := downN_spec n (swapJ l 0 n) 0 n (by omega) hswl hinv
  have hpop : heapPopL l = (getJ (downN n (swapJ l 0 n) 0 n) n,
      (downN n (swapJ l 0 n) 0 n).take n) := by
    unfold heapPopL heapDown
    rw [hn]
    simp
  have hl2len : (downN n (swapJ l 0 n) 0 n).length = n + 1 := by
    rw [hP.length_eq, length_swapJ]
    exact hn
  have hfst : getJ (downN n (swapJ l 0 n) 0 n) n = getJ l 0 := by
    rw [hU n (le_refl n) (by rw [length_swapJ]; exact hnl)]
    rw [getJ_swapJ hne hnl hnl]
    rw [if_pos rfl]
  rw [hpop]
  refine ⟨hfst, ?_, ?_, ?_⟩
  · intro k hk0 hkl
    rw [List.length_take, hl2len] at hkl
    have hkn : k < n := by omega
    have hkl2 : k < (downN n (swapJ l 0 n) 0 n).length := by omega
    have hpk2 : parentIdx k < (downN n (swapJ l 0 n) 0 n).length := by
      have := parentIdx_lt hk0
      omega
    rw [getJ_take hkn hkl2, getJ_take (lt_trans (parentIdx_lt hk0) hkn) hpk2]
    exact hH k hk0 hkn
  · have hdrop : (downN n (swapJ l 0 n) 0 n).drop n =
        [getJ (downN n (swapJ l 0 n) 0 n) n] := by
      rw [List.drop_eq_getElem_cons (by omega)]
      rw [show (downN n (swapJ l 0 n) 0 n).drop (n + 1) = [] from by
        rw [← hl2len, List.drop_length]]
      rw [getJ_eq_getElem (by omega)]
      rfl
    have hsplit := List.take_append_drop n (downN n (swapJ l 0 n) 0 n)
    rw [hdrop] at hsplit
    have hstep : (getJ (downN n (swapJ l 0 n) 0 n) n ::
        (downN n (swapJ l 0 n) 0 n).take n).Perm (downN n (swapJ l 0 n) 0 n) := by
      conv_rhs => rw [← hsplit]
      exact (List.perm_append_singleton _ _).symm
    exact hstep.trans (hP.trans (swapJ_perm hne hnl))
  · rw [List.length_take, hl2len]
    omega

theorem drainH_spec : ∀ (f : Nat) (l : List Job), l.length = f → isHeap l →
    List.Sorted jobOrd (drainH f l) ∧ (drainH f l).Perm l := by
  intro f
  induction f with
  | zero =>
    intro l hl _
    rw [List.length_eq_zero] at hl
    subst hl
    exact ⟨List.sorted_nil, List.Perm.refl _⟩
  | succ f ih =>
    intro l hl hh
    match l, hl with
    | x :: xs, hl =>
      have hne : 0 < (x :: xs).length := by simp
      obtain ⟨h1, h2, h3, h4⟩ := heapPopL_spec hne hh
      rw [show drainH (f + 1) (x :: xs) =
        (heapPopL (x :: xs)).1 :: drainH f (heapPopL (x :: xs)).2 from rfl]
      have hlen2 : (heapPopL (x :: xs)).2.length = f := by
        rw [h4]
        simp only [List.length_cons] at hl ⊢
        omega
      obtain ⟨hs, hp⟩ := ih _ hlen2 h2
      refine ⟨List.sorted_cons.mpr ⟨?_, hs⟩, (hp.cons _).trans h3⟩
      intro b hb
      have hbmem : b ∈ (heapPopL (x :: xs)).2 := hp.mem_iff.mp hb
      have hbl : b ∈ x :: xs := h3.mem_iff.mp (List.mem_cons_of_mem _ hbmem)
      obtain ⟨k, hk, hbk⟩ := List.mem_iff_getElem.mp hbl
      have hbk' : getJ (x :: xs) k = b := by
        rw [getJ_eq_getElem hk]
        simpa using hbk
      rw [h1, ← hbk']
      exact isHeap_root_min hh k hk

theorem enqueueList_spec : ∀ (js : List Job) (q : Queue), isHeap q.jobs →
    isHeap (enqueueList q js).jobs ∧
      ∃ acc : List Job, acc.Sublist js ∧ (enqueueList q js).jobs.Perm (acc ++ q.jobs) := by
  intro js
  induction js with
  | nil =>
    intro q hh
    exact ⟨hh, [], List.nil_sublist _, List.Perm.refl _⟩
  | cons j t ih =>
    intro q hh
    rw [show enqueueList q (j :: t) = enqueueList (enqueue q j).1 t from rfl]
    by_cases hcap : q.capacity ≤ q.jobs.length
    · have he : (enqueue q j).1 = q := by simp [enqueue, hcap]
      rw [he]
      obtain ⟨h1, acc, hsub, hperm⟩ := ih q hh
      exact ⟨h1, acc, hsub.cons _, hperm⟩
    · have he : (enqueue q j).1 = { q with jobs := heapPush q.jobs j } := by
        simp [enqueue, hcap]
      rw [he]
      have hpush := heapPush_isHeap (x := j) hh
      obtain ⟨h1, acc, hsub, hperm⟩ := ih { q with jobs := heapPush q.jobs j } hpush.1
      refine ⟨h1, j :: acc, List.Sublist.cons₂ _ hsub, ?_⟩
      have s1 : (enqueueList { q with jobs := heapPush q.jobs j } t).jobs.Perm
          (acc ++ heapPush q.jobs j) := hperm
      have s2 : (acc ++ heapPush q.jobs j).Perm (acc ++ j :: q.jobs) :=
        List.Perm.append_left acc hpush.2
      have s3 : (acc ++ j :: q.jobs).Perm (j :: (acc ++ q.jobs)) := List.perm_middle
      exact (s1.trans s2).trans s3

theorem found_fold_some (ty : JobType) (sid : String) :
    ∀ (l : List Job) (b : Job),
      l.foldl (fun acc pj =>
        if pj.jobType == ty && pj.sessionID == sid then
          (match acc with
           | none => some pj
           | some f => if pj.enqueuedAt < f.enqueuedAt then some pj else some f)
        else acc) (some b) =
      some (selectEarliest b
        (l.filter (fun pj => pj.jobType == ty && pj.sessionID == sid))) := by
  intro l
  induction l with
  | nil => intro b; rfl
  | cons x t ih =>
    intro b
    rw [List.foldl_cons, List.filter_cons]
    by_cases hx : (x.jobType == ty && x.sessionID == sid) = true
    · rw [if_pos hx, if_pos hx]
      rw [show selectEarliest b
        (x :: t.filter (fun pj => pj.jobType == ty && pj.sessionID == sid)) =
        selectEarliest (if x.enqueuedAt < b.enqueuedAt then x else b)
          (t.filter (fun pj => pj.jobType == ty && pj.sessionID == sid)) from rfl]
      by_cases ht : x.enqueuedAt < b.enqueuedAt <;>
        simp only [ht, if_true, if_false] <;> exact ih _
    · rw [if_neg hx, if_neg hx]
      exact ih b

theorem found_fold_eq (l : List Job) (ty : JobType) (sid : String) :
    l.foldl (fun acc pj =>
      if pj.jobType == ty && pj.sessionID == sid then
        (match acc with
         | none => some pj
         | some f => if pj.enqueuedAt < f.enqueuedAt then some pj else some f)
      else acc) none =
    (match l.filter (fun pj => pj.jobType == ty && pj.sessionID == sid) with
     | [] => none
     | j :: rest => some (selectEarliest j rest)) := by
  induction l with
  | nil => rfl
  | cons x t ih =>
    rw [List.foldl_cons, List.filter_cons]
    by_cases hx : (x.jobType == ty && x.sessionID == sid) = true
    · rw [if_pos hx, if_pos hx]
      exact found_fold_some ty sid t x
    · rw [if_neg hx, if_neg hx]
      exact ih

theorem foldl_count_if (p : Job → Bool) :
    ∀ (l : List Job) (init : Nat),
      l.foldl (fun pos x => if p x then pos + 1 else pos) init = init + l.countP p := by
  intro l
  induction l with
  | nil => intro init; simp [List.countP_nil]
  | cons x t ih =>
    intro init
    by_cases hx : p x <;> simp [List.countP_cons, hx, ih] <;> omega

theorem pos_fold_eq (l : List Job) (ty : JobType) (f : Job) :
    l.foldl (fun pos pj =>
      if pj.jobType != ty then pos
      else if pj.priority > f.priority then pos + 1
      else if pj.priority == f.priority && pj.enqueuedAt < f.enqueuedAt then pos + 1
      else pos) 1 =
    1 + l.countP (fun pj => pj.jobType == ty && jobStrictBefore pj f) := by
  rw [← foldl_count_if]
  apply List.foldl_ext
  intro pos pj _
  by_cases h1 : (pj.jobType == ty) = true
  · by_cases h2 : pj.priority > f.priority
    · simp [bne, h1, h2, jobStrictBefore]
    · by_cases h3 : pj.priority = f.priority
      · by_cases h4 : pj.enqueuedAt < f.enqueuedAt
        · simp [bne, h1, h2, h3, h4, jobStrictBefore]
        · simp [bne, h1, h2, h3, h4, jobStrictBefore]
      · simp [bne, h1, h2, h3, jobStrictBefore]
  · have h1f : (pj.jobType == ty) = false := by
      cases hx : pj.jobType == ty
      · rfl
      · exact absurd hx h1
    simp [bne, h1f]

theorem countP_and_filter (p q : Job → Bool) :
    ∀ l : List Job, l.countP (fun x => p x && q x) = (l.filter p).countP q := by
  intro l
  induction l with
  | nil => rfl
  | cons x t ih =>
    by_cases hp : p x <;> by_cases hq : q x <;>
      simp [List.filter_cons, List.countP_cons, hp, hq, ih]

theorem selectEarliest_le (j : Job) (rest : List Job) :
    ∀ x ∈ j :: rest, (selectEarliest j rest).enqueuedAt ≤ x.enqueuedAt := by
  induction rest generalizing j with
  | nil =>
    intro x hx
    rcases List.mem_cons.mp hx with rfl | h
    · exact le_refl _
    · simp at h
  | cons y t ih =>
    intro x hx
    rw [show selectEarliest j (y :: t) =
      selectEarliest (if y.enqueuedAt < j.enqueuedAt then y else j) t from rfl]
    have hj' : (if y.enqueuedAt < j.enqueuedAt then y else j).enqueuedAt ≤ j.enqueuedAt := by
      split <;> omega
    have hy' : (if y.enqueuedAt < j.enqueuedAt then y else j).enqueuedAt ≤ y.enqueuedAt := by
      split <;> omega
    have hmin := ih (if y.enqueuedAt < j.enqueuedAt then y else j) _
      (List.mem_cons_self _ _)
    rcases List.mem_cons.mp hx with rfl | hx'
    · exact le_trans hmin hj'
    · rcases List.mem_cons.mp hx' with rfl | hx''
      · exact le_trans hmin hy'
      · exact ih _ x (List.mem_cons_of_mem _ hx'')

theorem rank_in_sorted {l D : List Job} {e : Job} (hd : distinctKeys l)
    (hperm : D.Perm l) (hsort : List.Sorted jobOrd D) (he : e ∈ l) :
    ∃ D1 D2, D = D1 ++ e :: D2
      ∧ D1.length = (l.filter (fun x => jobStrictBefore x e)).length
      ∧ ∀ x ∈ D1, jobStrictBefore x e = true := by
  have heD : e ∈ D := hperm.mem_iff.mpr he
  obtain ⟨D1, D2, hsplit, hnotin⟩ := exists_first_split heD
  have hdD : distinctKeys D :=
    ((List.Perm.pairwise_iff (fun h hc => h ⟨hc.1.symm, hc.2.symm⟩) hperm).mpr hd)
  rw [hsplit] at hsort hdD hperm
  have hpw := List.pairwise_append.mp hsort
  have hstrict : ∀ x ∈ D1, jobStrictBefore x e = true := by
    intro x hx
    have hord : jobOrd x e := hpw.2.2 x hx e (List.mem_cons_self _ _)
    have hkey : ¬ (x.priority = e.priority ∧ x.enqueuedAt = e.enqueuedAt) := by
      have := List.pairwise_append.mp hdD
      exact this.2.2 x hx e (List.mem_cons_self _ _)
    exact strict_of_ord_of_ne_key hord hkey
  refine ⟨D1, D2, hsplit, ?_, hstrict⟩
  have hcount : (l.filter (fun x => jobStrictBefore x e)).length =
      List.countP (fun x => jobStrictBefore x e) l := by
    simp [List.countP_eq_length_filter]
  rw [hcount, ← hperm.countP_eq]
  rw [List.countP_append]
  have h1 : List.countP (fun x => jobStrictBefore x e) D1 = D1.length :=
    List.countP_eq_length.mpr hstrict
  have h2 : List.countP (fun x => jobStrictBefore x e) (e :: D2) = 0 := by
    rw [List.countP_eq_zero]
    intro x hx
    rcases List.mem_cons.mp hx with rfl | hx'
    · exact not_strict_of_ord (jobOrd_refl x)
    · have hord : jobOrd e x := by
        have := List.sorted_cons.mp (List.pairwise_append.mp hsort).2.1
        exact this.1 x hx'
      exact not_strict_of_ord hord
  omega

/-- C3: the heap-backed job queue (`package queue`, embedded in
`scripts/flow_report.sh`) dequeues in order — for every sequence of enqueues
with pairwise-distinct (priority, enqueue-time) pairs into a bounded queue,
the dequeue sequence is sorted by priority descending then, within equal
priority, by enqueue time ascending; and `PositionForSession` returns 0 when
no same-type job matches the session, and otherwise returns the 1-based rank
in the same-type dequeue order of the earliest-enqueued matching entry:
the dequeue order of same-type jobs splits around that entry, every entry
ahead of it is served strictly before it, and the returned position is one
more than their number. -/
theorem queue_drain_sorted_position_rank :
    (∀ (cap : Nat) (js : List Job), distinctKeys js →
      List.Sorted jobOrd (drain (enqueueList ⟨cap, []⟩ js)))
    ∧ (∀ (q : Queue) (ty : JobType) (sid : String),
        q.jobs.filter (fun x => x.jobType == ty && x.sessionID == sid) = [] →
        positionForSession q ty sid = 0)
    ∧ (∀ (cap : Nat) (js : List Job) (ty : JobType) (sid : String) (j : Job)
        (rest : List Job),
        distinctKeys js →
        (enqueueList ⟨cap, []⟩ js).jobs.filter
          (fun x => x.jobType == ty && x.sessionID == sid) = j :: rest →
        (∀ x ∈ j :: rest, (selectEarliest j rest).enqueuedAt ≤ x.enqueuedAt)
        ∧ ∃ D1 D2,
          (drain (enqueueList ⟨cap, []⟩ js)).filter (fun x => x.jobType == ty) =
            D1 ++ selectEarliest j rest :: D2
          ∧ positionForSession (enqueueList ⟨cap, []⟩ js) ty sid = D1.length + 1
          ∧ ∀ x ∈ D1, jobStrictBefore x (selectEarliest j rest) = true) := by
  refine ⟨?_, ?_, ?_⟩
  · intro cap js _
    have hh : isHeap (enqueueList ⟨cap, []⟩ js).jobs :=
      (enqueueList_spec js ⟨cap, []⟩ (by intro k hk0 hkl; simp at hkl)).1
    exact (drainH_spec _ _ rfl hh).1
  · intro q ty sid h
    simp only [positionForSession]
    rw [found_fold_eq, h]
  · intro cap js ty sid j rest hd hfil
    have hbase : isHeap (⟨cap, []⟩ : Queue).jobs := by
      intro k hk0 hkl
      simp at hkl
    obtain ⟨hh, acc, hsub, hperm⟩ := enqueueList_spec js ⟨cap, []⟩ hbase
    have hperm' : (enqueueList ⟨cap, []⟩ js).jobs.Perm acc := by
      simpa using hperm
    have hdq : distinctKeys (enqueueList ⟨cap, []⟩ js).jobs := by
      have hdacc : distinctKeys acc := List.Pairwise.sublist hsub hd
      exact (List.Perm.pairwise_iff (fun h hc => h ⟨hc.1.symm, hc.2.symm⟩)
        hperm').mpr hdacc
    have hdrain := drainH_spec (enqueueList ⟨cap, []⟩ js).jobs.length
      (enqueueList ⟨cap, []⟩ js).jobs rfl hh
    have hemem2 : selectEarliest j rest ∈ (enqueueList ⟨cap, []⟩ js).jobs.filter
        (fun x => x.jobType == ty && x.sessionID == sid) := by
      rw [hfil]
      exact selectEarliest_mem j rest
    have hememtype : selectEarliest j rest ∈ (enqueueList ⟨cap, []⟩ js).jobs.filter
        (fun x => x.jobType == ty) := by
      have h1 := List.mem_filter.mp hemem2
      refine List.mem_filter.mpr ⟨h1.1, ?_⟩
      have h2 := h1.2
      rw [Bool.and_eq_true] at h2
      exact h2.1
    have hdty : distinctKeys ((enqueueList ⟨cap, []⟩ js).jobs.filter
        (fun x => x.jobType == ty)) := List.Pairwise.filter _ hdq
    have hpermty : ((drain (enqueueList ⟨cap, []⟩ js)).filter
        (fun x => x.jobType == ty)).Perm
        ((enqueueList ⟨cap, []⟩ js).jobs.filter (fun x => x.jobType == ty)) :=
      List.Perm.filter _ hdrain.2
    have hsortty : List.Sorted jobOrd ((drain (enqueueList ⟨cap, []⟩ js)).filter
        (fun x => x.jobType == ty)) := List.Pairwise.filter _ hdrain.1
    obtain ⟨D1, D2, hD, hlen, hstrict⟩ :=
      rank_in_sorted hdty hpermty hsortty hememtype
    refine ⟨selectEarliest_le j rest, D1, D2, hD, ?_, hstrict⟩
    simp only [positionForSession]
    rw [found_fold_eq, hfil]
    show (enqueueList ⟨cap, []⟩ js).jobs.foldl
      (fun pos pj =>
        if pj.jobType != ty then pos
        else if pj.priority > (selectEarliest j rest).priority then pos + 1
        else if pj.priority == (selectEarliest j rest).priority &&
            pj.enqueuedAt < (selectEarliest j rest).enqueuedAt then pos + 1
        else pos) 1 = D1.length + 1
    rw [pos_fold_eq, countP_and_filter, List.countP_eq_length_filter, ← hlen]
    omega

/-- Witness for C3: three convert jobs enqueued into a capacity-10 queue —
the drain is sorted, a session with no download-type job has position 0,
and the earliest convert job of session `"x"` splits the convert dequeue
order at its reported position. -/
theorem queue_drain_sorted_position_rank_witness :
    List.Sorted jobOrd (drain (enqueueList ⟨10, []⟩
      [⟨"a", .convert, "x", "", "", "", 0, 5, 0, ""⟩,
       ⟨"b", .convert, "y", "", "", "", 1, 50, 0, ""⟩,
       ⟨"c", .convert, "x", "", "", "", 2, 5, 0, ""⟩]))
    ∧ positionForSession (enqueueList ⟨10, []⟩
      [⟨"a", .convert, "x", "", "", "", 0, 5, 0, ""⟩,
       ⟨"b", .convert, "y", "", "", "", 1, 50, 0, ""⟩,
       ⟨"c", .convert, "x", "", "", "", 2, 5, 0, ""⟩]) .download "x" = 0
    ∧ ((∀ x ∈ [(⟨"a", .convert, "x", "", "", "", 0, 5, 0, ""⟩ : Job),
         ⟨"c", .convert, "x", "", "", "", 2, 5, 0, ""⟩],
        (selectEarliest ⟨"a", .convert, "x", "", "", "", 0, 5, 0, ""⟩
          [⟨"c", .convert, "x", "", "", "", 2, 5, 0, ""⟩]).enqueuedAt ≤ x.enqueuedAt)
       ∧ ∃ D1 D2,
          (drain (enqueueList ⟨10, []⟩
            [⟨"a", .convert, "x", "", "", "", 0, 5, 0, ""⟩,
             ⟨"b", .convert, "y", "", "", "", 1, 50, 0, ""⟩,
             ⟨"c", .convert, "x", "", "", "", 2, 5, 0, ""⟩])).filter
            (fun x => x.jobType == JobType.convert) =
            D1 ++ selectEarliest ⟨"a", .convert, "x", "", "", "", 0, 5, 0, ""⟩
              [⟨"c", .convert, "x", "", "", "", 2, 5, 0, ""⟩] :: D2
          ∧ positionForSession (enqueueList ⟨10, []⟩
              [⟨"a", .convert, "x", "", "", "", 0, 5, 0, ""⟩,
               ⟨"b", .convert, "y", "", "", "", 1, 50, 0, ""⟩,
               ⟨"c", .convert, "x", "", "", "", 2, 5, 0, ""⟩]) .convert "x" =
              D1.length + 1
          ∧ ∀ x ∈ D1, jobStrictBefore x
              (selectEarliest ⟨"a", .convert, "x", "", "", "", 0, 5, 0, ""⟩
                [⟨"c", .convert, "x", "", "", "", 2, 5, 0, ""⟩]) = true) := by
  refine ⟨?_, ?_, ?_⟩
  · exact queue_drain_sorted_position_rank.1 10 _ (by simp [distinctKeys])
  · exact queue_drain_sorted_position_rank.2.1 _ .download "x" (by decide)
  · exact queue_drain_sorted_position_rank.2.2 10 _ .convert "x" _ _
      (by simp [distinctKeys]) (by decide)

set_option maxRecDepth 1000000 in
/-- The SHA-1 embedding agrees with the standard test vector for `"abc"`. -/
theorem hashString_test_vector_abc :
    hashString "abc" = "a9993e364706816aba3e25717850c26c9cd0d89d" := by decide

set_option maxRecDepth 1000000 in
/-- The SHA-1 embedding agrees with the standard test vector for `""`. -/
theorem hashString_test_vector_empty :
    hashString "" = "da39a3ee5e6b4b0d3255bfef95601890afd80709" := by decide

end YtApi
